import Mathlib

/-!
# Verification of the interpol-calc numerical core

Shallow embedding of the interpolation / differentiation engine of the
`interpol-calc` repository.  Machine numbers are modelled by `ℚ` (exact
arithmetic); every `ℚ` is finite, so the source's `Number.isFinite` checks
always pass in the model.  Functions of the source that `throw` are modelled
by `Except CalcError`.  Loops accumulating a sum or a product with `+`/`*`
are rendered as `Finset` sums/products over the same index ranges; stateful
loops are rendered as folds over the same index lists.
-/

namespace InterpolCalc

/-- Errors of the core (`src/types/errors.ts`): `TabularDataError` and
`MethodNotSupportedError`, each carrying a message. -/
inductive CalcError where
  | dataError (msg : String)
  | methodNotSupported (msg : String)
deriving DecidableEq

/-- Decidable equality of `Except` results, used to evaluate the embedding
on concrete inputs. -/
instance {e a : Type} [DecidableEq e] [DecidableEq a] : DecidableEq (Except e a) := fun u w =>
  match u, w with
  | .ok s, .ok t =>
    if h : s = t then .isTrue (by rw [h]) else .isFalse (by intro he; cases he; exact h rfl)
  | .error s, .error t =>
    if h : s = t then .isTrue (by rw [h]) else .isFalse (by intro he; cases he; exact h rfl)
  | .ok _, .error _ => .isFalse (by intro he; cases he)
  | .error _, .ok _ => .isFalse (by intro he; cases he)

/-- `TabularFunction` (`src/types/tabular.ts`): nodes `x` and values `f`. -/
structure TabularFunction where
  x : List ℚ
  f : List ℚ
deriving DecidableEq

/-- `InterpolationResult`: echoed points `X` and computed values `F`. -/
structure InterpolationResult where
  X : List ℚ
  F : List ℚ
deriving DecidableEq

/-- `DerivativeResult`: echoed points `X` and derivative values `Fd`. -/
structure DerivativeResult where
  X : List ℚ
  Fd : List ℚ
deriving DecidableEq

/-- `isStrictlyIncreasing` (validation module): the loop checking
`arr[i] <= arr[i-1]` for consecutive entries. -/
def isStrictlyIncreasing : List ℚ → Bool
  | [] => true
  | [_] => true
  | a :: b :: rest => decide (a < b) && isStrictlyIncreasing (b :: rest)

/-- `validateTabular` (validation module).  The `Array.isArray` test always
holds in the model and every `ℚ` is finite, so the corresponding checks
vanish; the remaining checks are translated in source order. -/
def validateTabular (table : TabularFunction) (minPoints : ℕ) : Except CalcError Unit :=
  if table.x.length ≠ table.f.length then
    .error (.dataError "Arrays x and f must have the same length.")
  else if table.x.length < minPoints then
    .error (.dataError "Tabular data must contain at least minPoints points.")
  else if !isStrictlyIncreasing table.x then
    .error (.dataError "Array x must be strictly increasing.")
  else
    .ok ()

/-- `validatePointsToEvaluate` (validation module).  The finiteness loop
always passes in the model; the emptiness and range checks are kept.  The
source throws at the first out-of-range point, so the call errors exactly
when some point is out of range. -/
def validatePointsToEvaluate (table : TabularFunction) (X : List ℚ)
    (requireInRange : Bool) : Except CalcError Unit :=
  if X.length = 0 then
    .error (.dataError "Points to evaluate (X) must be a non-empty array.")
  else if requireInRange &&
      X.any (fun v =>
        decide (v < table.x.getD 0 0) ||
        decide (table.x.getD (table.x.length - 1) 0 < v)) then
    .error (.dataError "Point X is outside of the tabular data range.")
  else
    .ok ()

/-- `validateMinPointsForMethod` (validation module). -/
def validateMinPointsForMethod (table : TabularFunction) (requiredPoints : ℕ)
    (methodName : String) : Except CalcError Unit :=
  if table.x.length < requiredPoints then
    .error (.dataError ("Method requires more points in the table: " ++ methodName))
  else
    .ok ()

/-- Loop body of `findNearestIndex` (tabularUtils): scan indices
`1 .. x.length-1` carrying the pair `(nearestIndex, minDist)`; strict `<`
keeps the first (lowest-index) minimum. -/
def findNearestIndexCore (x : List ℚ) (X : ℚ) : ℕ :=
  ((List.range' 1 (x.length - 1)).foldl
    (fun s i =>
      let dist := |x.getD i 0 - X|
      if dist < s.2 then (i, dist) else s)
    (0, |x.getD 0 0 - X|)).1

/-- `findNearestIndex` (tabularUtils): throws on an empty array. -/
def findNearestIndex (x : List ℚ) (X : ℚ) : Except CalcError ℕ :=
  if x.length = 0 then
    .error (.dataError "Cannot find nearest index in an empty array.")
  else
    .ok (findNearestIndexCore x X)

/-- The `steps` array of `getApproximateStep`: consecutive node spacings
`x[i] - x[i-1]` for `i = 1 .. x.length-1`. -/
def gridSteps (x : List ℚ) : List ℚ :=
  (List.range (x.length - 1)).map (fun i => x.getD (i + 1) 0 - x.getD i 0)

/-- `getApproximateStep` (tabularUtils): mean spacing `h`, returned only
when every spacing deviates from `h` by at most `tolerance`. -/
def getApproximateStep (x : List ℚ) (tolerance : ℚ) : Option ℚ :=
  if x.length < 2 then none
  else
    let h := (gridSteps x).sum / ((gridSteps x).length : ℚ)
    if (gridSteps x).any (fun step => decide (tolerance < |step - h|)) then none
    else some h

/-- `get5PointStencilIndices` (tabularUtils).  The start index is computed
in `ℤ` (the source value `nearest - 2` may be negative), the low clamp is
applied first, then the high clamp, exactly as in the source. -/
def get5PointStencilIndices (table : TabularFunction) (X : ℚ) :
    Except CalcError (List ℤ) :=
  if table.x.length < 5 then
    .error (.dataError "At least 5 points are required to build a 5-point stencil.")
  else
    match findNearestIndex table.x X with
    | .error e => .error e
    | .ok nearest =>
      let start0 : ℤ := (nearest : ℤ) - 2
      let start1 : ℤ := if start0 < 0 then 0 else start0
      let start2 : ℤ := if (table.x.length : ℤ) ≤ start1 + 4 then (table.x.length : ℤ) - 5 else start1
      .ok ((List.range 5).map fun i => start2 + Int.ofNat i)

/-- Array access at a (possibly negative) `ℤ` index, as produced by the
stencil computation; on the paths exercised by the claims the index is
always within `[0, l.length)`. -/
def zget (l : List ℚ) (i : ℤ) : ℚ :=
  if 0 ≤ i then l.getD i.toNat 0 else 0

/-- `interpolateLagrangeAtPoint` (`lagrange.ts` lines 16-36): the double
loop accumulating `Σ f_i · Π_{j≠i} (Xk - x_j)/(x_i - x_j)`. -/
def interpolateLagrangeAtPoint (x f : List ℚ) (Xk : ℚ) : ℚ :=
  ∑ i ∈ Finset.range x.length,
    f.getD i 0 *
      ∏ j ∈ (Finset.range x.length).erase i,
        ((Xk - x.getD j 0) / (x.getD i 0 - x.getD j 0))

/-- `interpolateLagrange` (`lagrange.ts` lines 48-69). -/
def interpolateLagrange (table : TabularFunction) (X : List ℚ) :
    Except CalcError InterpolationResult :=
  match validateTabular table 2 with
  | .error e => .error e
  | .ok _ =>
    match validatePointsToEvaluate table X false with
    | .error e => .error e
    | .ok _ =>
      .ok { X := X, F := X.map (fun Xk => interpolateLagrangeAtPoint table.x table.f Xk) }

/-- One outer iteration (index `j`) of the `buildNewtonCoefficients` double
loop.  The source updates `coef[i]` for `i = x.length-1` down to `j`; since
the update at `i` reads only `coef[i]` and `coef[i-1]` and positions below
`i` are written later, the downward pass equals this simultaneous update
from the pre-pass array. -/
def newtonPass (x : List ℚ) (j : ℕ) (coef : List ℚ) : List ℚ :=
  (List.range coef.length).map fun i =>
    if j ≤ i ∧ i < x.length then
      (coef.getD i 0 - coef.getD (i - 1) 0) / (x.getD i 0 - x.getD (i - j) 0)
    else coef.getD i 0

/-- `buildNewtonCoefficients` (`newton.ts` lines 206-219): outer loop
`j = 1 .. x.length-1` over a working copy of `f`. -/
def buildNewtonCoefficients (x f : List ℚ) : List ℚ :=
  (List.range' 1 (x.length - 1)).foldl (fun coef j => newtonPass x j coef) f

/-- `evaluateNewtonAtPoint` (`newton.ts` lines 231-246): Horner-style
evaluation, folding from index `x.length-2` down to `0`. -/
def evaluateNewtonAtPoint (x coef : List ℚ) (Xk : ℚ) : ℚ :=
  ((List.range (x.length - 1)).reverse).foldl
    (fun result i => result * (Xk - x.getD i 0) + coef.getD i 0)
    (coef.getD (x.length - 1) 0)

/-- `interpolateNewton` (`newton.ts` lines 258-281). -/
def interpolateNewton (table : TabularFunction) (X : List ℚ) :
    Except CalcError InterpolationResult :=
  match validateTabular table 2 with
  | .error e => .error e
  | .ok _ =>
    match validatePointsToEvaluate table X false with
    | .error e => .error e
    | .ok _ =>
      let coef := buildNewtonCoefficients table.x table.f
      .ok { X := X, F := X.map (fun Xk => evaluateNewtonAtPoint table.x coef Xk) }

/-- `computeLagrangeDerivativeAtPoint` (`differentiation/interpolation5.ts`
lines 113-145): the triple loop for
`Σ_i f_i Σ_{m≠i} (1/(x_i-x_m)) Π_{j≠i,m} (Xk-x_j)/(x_i-x_j)`. -/
def computeLagrangeDerivativeAtPoint (x f : List ℚ) (Xk : ℚ) : ℚ :=
  ∑ i ∈ Finset.range x.length,
    f.getD i 0 *
      ∑ m ∈ (Finset.range x.length).erase i,
        (1 / (x.getD i 0 - x.getD m 0)) *
          ∏ j ∈ ((Finset.range x.length).erase i).erase m,
            ((Xk - x.getD j 0) / (x.getD i 0 - x.getD j 0))

/-- A `for … of` loop that pushes one computed value per element and
propagates the first thrown error. -/
def mapExcept (g : ℚ → Except CalcError ℚ) : List ℚ → Except CalcError (List ℚ)
  | [] => .ok []
  | a :: as =>
    match g a with
    | .error e => .error e
    | .ok b =>
      match mapExcept g as with
      | .error e => .error e
      | .ok bs => .ok (b :: bs)

/-- `differentiateByInterpolation5` (`differentiation/interpolation5.ts`
lines 163-192). -/
def differentiateByInterpolation5 (table : TabularFunction) (X : List ℚ) :
    Except CalcError DerivativeResult :=
  match validateTabular table 5 with
  | .error e => .error e
  | .ok _ =>
    match validateMinPointsForMethod table 5 "interpolation5" with
    | .error e => .error e
    | .ok _ =>
      match validatePointsToEvaluate table X true with
      | .error e => .error e
      | .ok _ =>
        match mapExcept (fun Xk =>
          match get5PointStencilIndices table Xk with
          | .error e => .error e
          | .ok indices =>
            .ok (computeLagrangeDerivativeAtPoint
              (indices.map (zget table.x)) (indices.map (zget table.f)) Xk)) X with
        | .error e => .error e
        | .ok Fd => .ok { X := X, Fd := Fd }

/-- `finiteDifference5AtIndex` (`approximation5.ts` lines 25-82): the five
fixed fourth-order finite-difference formulas, tested in source order. -/
def finiteDifference5AtIndex (f : List ℚ) (i : ℕ) (h : ℚ) : Except CalcError ℚ :=
  let n := f.length
  if n < 5 then
    .error (.dataError "At least 5 points are required to apply 5-point finite difference formulas.")
  else if i = 0 then
    .ok ((-25 * f.getD 0 0 + 48 * f.getD 1 0 - 36 * f.getD 2 0
          + 16 * f.getD 3 0 - 3 * f.getD 4 0) / (12 * h))
  else if i = 1 then
    .ok ((-3 * f.getD 0 0 - 10 * f.getD 1 0 + 18 * f.getD 2 0
          - 6 * f.getD 3 0 + f.getD 4 0) / (12 * h))
  else if i = n - 2 then
    .ok ((3 * f.getD (n - 1) 0 + 10 * f.getD (n - 2) 0 - 18 * f.getD (n - 3) 0
          + 6 * f.getD (n - 4) 0 - f.getD (n - 5) 0) / (12 * h))
  else if i = n - 1 then
    .ok ((25 * f.getD (n - 1) 0 - 48 * f.getD (n - 2) 0 + 36 * f.getD (n - 3) 0
          - 16 * f.getD (n - 4) 0 + 3 * f.getD (n - 5) 0) / (12 * h))
  else
    .ok ((f.getD (i - 2) 0 - 8 * f.getD (i - 1) 0 + 8 * f.getD (i + 1) 0
          - f.getD (i + 2) 0) / (12 * h))

/-- `differentiateByApproximation5` (`approximation5.ts` lines 97-140).
`Number.isFinite h` always holds in the model; the `h = 0` branch is kept. -/
def differentiateByApproximation5 (table : TabularFunction) (X : List ℚ) :
    Except CalcError DerivativeResult :=
  match validateTabular table 5 with
  | .error e => .error e
  | .ok _ =>
    match validateMinPointsForMethod table 5 "approximation5" with
    | .error e => .error e
    | .ok _ =>
      match getApproximateStep table.x (1 / 1000000) with
      | none => .error (.dataError "Approximation method requires an almost uniform grid in x.")
      | some h =>
        if |h| = 0 then
          .error (.dataError "Approximation method requires an almost uniform grid in x.")
        else
          match validatePointsToEvaluate table X true with
          | .error e => .error e
          | .ok _ =>
            let nodeTolerance := |h| * (1 / 1000)
            match mapExcept (fun Xk =>
              match findNearestIndex table.x Xk with
              | .error e => .error e
              | .ok idx =>
                if nodeTolerance < |Xk - table.x.getD idx 0| then
                  .error (.dataError "Approximation method supports only points X that are close to tabular nodes.")
                else
                  finiteDifference5AtIndex table.f idx h) X with
            | .error e => .error e
            | .ok Fd => .ok { X := X, Fd := Fd }

/-- `InterpolationComparisonRow` (`src/types/interpolation.ts`). -/
structure InterpolationComparisonRow where
  X : ℚ
  lagrange : ℚ
  newton : ℚ
  absDiff : ℚ
deriving DecidableEq

/-- `InterpolationMethodsSummary` (`src/types/interpolation.ts`). -/
structure InterpolationMethodsSummary where
  rows : List InterpolationComparisonRow
  meanAbsDiff : ℚ
  maxAbsDiff : ℚ
deriving DecidableEq

/-- `buildInterpolationMethodsSummary` (`interpolation/methodsSummary.ts`
lines 14-53): both interpolators run (their validation errors propagate),
then per-point rows and the aggregates are accumulated. -/
def buildInterpolationMethodsSummary (table : TabularFunction) (X : List ℚ) :
    Except CalcError InterpolationMethodsSummary :=
  match interpolateLagrange table X with
  | .error e => .error e
  | .ok lagrangeResult =>
    match interpolateNewton table X with
    | .error e => .error e
    | .ok newtonResult =>
      let rows := (List.range X.length).map fun i =>
        let vL := lagrangeResult.F.getD i 0
        let vN := newtonResult.F.getD i 0
        { X := X.getD i 0, lagrange := vL, newton := vN,
          absDiff := |vL - vN| : InterpolationComparisonRow }
      let diffs := rows.map (fun r => r.absDiff)
      .ok { rows := rows
            meanAbsDiff := if 0 < X.length then diffs.sum / (X.length : ℚ) else 0
            maxAbsDiff := diffs.foldl (fun m d => if m < d then d else m) 0 }

/-- `DifferentiationComparisonRow` (`src/types/differentiation.ts`);
`null` entries are `none`. -/
structure DifferentiationComparisonRow where
  X : ℚ
  interpolation5 : Option ℚ
  approximation5 : Option ℚ
  absDiff : Option ℚ
deriving DecidableEq

/-- `DifferentiationMethodsSummary` (`src/types/differentiation.ts`). -/
structure DifferentiationMethodsSummary where
  rows : List DifferentiationComparisonRow
  meanAbsDiff : Option ℚ
  maxAbsDiff : Option ℚ
deriving DecidableEq

/-- `buildDifferentiationMethodsSummary`
(`differentiation/methodsSummary.ts` lines 19-91): each method is attempted
and its failure caught (`Except.toOption`); `Fd[i]` out of bounds is the
source's `undefined`, i.e. `none` via `List.get?`. -/
def buildDifferentiationMethodsSummary (table : TabularFunction) (X : List ℚ) :
    DifferentiationMethodsSummary :=
  let interpolationResult := (differentiateByInterpolation5 table X).toOption
  let approximationResult := (differentiateByApproximation5 table X).toOption
  let rows := (List.range X.length).map fun i =>
    let vInterp := interpolationResult.bind fun r => r.Fd.get? i
    let vApprox := approximationResult.bind fun r => r.Fd.get? i
    let absDiff : Option ℚ :=
      match vInterp, vApprox with
      | some a, some b => some |a - b|
      | _, _ => none
    { X := X.getD i 0, interpolation5 := vInterp, approximation5 := vApprox,
      absDiff := absDiff : DifferentiationComparisonRow }
  let diffs := rows.filterMap (fun r => r.absDiff)
  { rows := rows
    meanAbsDiff := if 0 < diffs.length then some (diffs.sum / (diffs.length : ℚ)) else none
    maxAbsDiff := if 0 < diffs.length then
      some (diffs.foldl (fun m d => if m < d then d else m) 0) else none }

/-- Divided difference `f[x_i, …, x_{i+g}]` over the embedded node list. -/
def dd (x f : List ℚ) : ℕ → ℕ → ℚ
  | i, 0 => f.getD i 0
  | i, g + 1 => (dd x f (i + 1) g - dd x f i g) / (x.getD (i + g + 1) 0 - x.getD i 0)

/-- The clamped stencil start index: low clamp (`max · 0`) first, then high
clamp (`min · (len-5)`), the order used by the source. -/
def stencilStart (x : List ℚ) (Xk : ℚ) : ℤ :=
  min (max ((findNearestIndexCore x Xk : ℤ) - 2) 0) ((x.length : ℤ) - 5)

/-- The Lagrange interpolant over the node window `x[a..b]` (specification
object; the code's functions are proved to evaluate it). -/
noncomputable def nodeInterp (x f : List ℚ) (a b : ℕ) : Polynomial ℚ :=
  Lagrange.interpolate (Finset.Icc a b) (fun i => x.getD i 0) (fun i => f.getD i 0)

/-- The Newton-form polynomial with the divided-difference coefficients. -/
noncomputable def newtonPoly (x f : List ℚ) (m : ℕ) : Polynomial ℚ :=
  ∑ j ∈ Finset.range (m + 1),
    Polynomial.C (dd x f 0 j) * Lagrange.nodal (Finset.range j) (fun i => x.getD i 0)

/-! ## Basic lemmas about the validation layer and list plumbing -/

theorem isStrictlyIncreasing_iff_chain' (l : List ℚ) :
    isStrictlyIncreasing l = true ↔ l.Chain' (· < ·) := by
  induction l with
  | nil => simp [isStrictlyIncreasing]
  | cons a t ih =>
    cases t with
    | nil => simp [isStrictlyIncreasing]
    | cons b t2 => simpa [isStrictlyIncreasing, List.chain'_cons] using fun _ => ih

theorem isStrictlyIncreasing_getD {l : List ℚ} (hl : isStrictlyIncreasing l = true)
    {i j : ℕ} (hij : i < j) (hj : j < l.length) : l.getD i 0 < l.getD j 0 := by
  have hp : l.Pairwise (· < ·) :=
    List.chain'_iff_pairwise.mp ((isStrictlyIncreasing_iff_chain' l).mp hl)
  have hi : i < l.length := lt_trans hij hj
  have h2 := (List.pairwise_iff_get.mp hp) ⟨i, hi⟩ ⟨j, hj⟩ hij
  rw [List.getD_eq_getElem?_getD, List.getD_eq_getElem?_getD,
    List.getElem?_eq_getElem hi, List.getElem?_eq_getElem hj]
  simpa [List.get_eq_getElem] using h2

theorem validateTabular_ok_iff (table : TabularFunction) (minPoints : ℕ) :
    validateTabular table minPoints = .ok () ↔
      table.x.length = table.f.length ∧ minPoints ≤ table.x.length ∧
        isStrictlyIncreasing table.x = true := by
  unfold validateTabular
  split_ifs with h1 h2 h3 <;> simp_all

theorem validatePointsToEvaluate_ok_iff (table : TabularFunction) (X : List ℚ)
    (requireInRange : Bool) :
    validatePointsToEvaluate table X requireInRange = .ok () ↔
      X ≠ [] ∧ (requireInRange = true →
        ∀ v ∈ X, table.x.getD 0 0 ≤ v ∧ v ≤ table.x.getD (table.x.length - 1) 0) := by
  unfold validatePointsToEvaluate
  split_ifs with h1 h2
  · constructor
    · intro h; exact absurd h (by simp)
    · intro ⟨hne, _⟩; exact absurd (List.length_eq_zero.mp h1) hne
  · constructor
    · intro h; exact absurd h (by simp)
    · intro ⟨hne, hall⟩
      rw [Bool.and_eq_true] at h2
      obtain ⟨hreq, hany⟩ := h2
      rw [List.any_eq_true] at hany
      obtain ⟨v, hv, hvbad⟩ := hany
      rw [Bool.or_eq_true, decide_eq_true_eq, decide_eq_true_eq] at hvbad
      have hh := hall hreq v hv
      rcases hvbad with hlt | hgt
      · exact absurd hh.1 (not_le.mpr hlt)
      · exact absurd hh.2 (not_le.mpr hgt)
  · constructor
    · intro _
      refine ⟨fun hXe => h1 (by simp [hXe]), fun hreq v hv => ?_⟩
      constructor
      · by_contra hlt
        exact h2 (by
          rw [Bool.and_eq_true]
          exact ⟨hreq, List.any_eq_true.mpr ⟨v, hv,
            by rw [Bool.or_eq_true]; exact Or.inl (decide_eq_true (not_le.mp hlt))⟩⟩)
      · by_contra hgt
        exact h2 (by
          rw [Bool.and_eq_true]
          exact ⟨hreq, List.any_eq_true.mpr ⟨v, hv,
            by rw [Bool.or_eq_true]; exact Or.inr (decide_eq_true (not_le.mp hgt))⟩⟩)
    · intro _; rfl

theorem validateMinPointsForMethod_ok_iff (table : TabularFunction) (requiredPoints : ℕ)
    (methodName : String) :
    validateMinPointsForMethod table requiredPoints methodName = .ok () ↔
      requiredPoints ≤ table.x.length := by
  unfold validateMinPointsForMethod
  split_ifs with h1 <;> simp <;> omega

theorem mapExcept_ok_of_forall {g : ℚ → Except CalcError ℚ} (hfun : ℚ → ℚ) :
    ∀ {l : List ℚ}, (∀ a ∈ l, g a = .ok (hfun a)) → mapExcept g l = .ok (l.map hfun) := by
  intro l
  induction l with
  | nil => intro _; rfl
  | cons a t ih =>
    intro H
    have ha := H a (List.mem_cons_self a t)
    have ht := ih (fun b hb => H b (List.mem_cons_of_mem a hb))
    simp [mapExcept, ha, ht]

theorem mapExcept_length {g : ℚ → Except CalcError ℚ} :
    ∀ {l bs : List ℚ}, mapExcept g l = .ok bs → bs.length = l.length := by
  intro l
  induction l with
  | nil =>
    intro bs h
    simp only [mapExcept] at h
    cases h
    rfl
  | cons a t ih =>
    intro bs h
    simp only [mapExcept] at h
    cases hg : g a with
    | error e => rw [hg] at h; cases h
    | ok b =>
      rw [hg] at h
      cases hrest : mapExcept g t with
      | error e => rw [hrest] at h; cases h
      | ok bs2 =>
        rw [hrest] at h
        cases h
        simpa using ih hrest

theorem mapExcept_error_of_mem {g : ℚ → Except CalcError ℚ} :
    ∀ {l : List ℚ},
      (∀ b ∈ l, (∃ c, g b = .ok c) ∨ ∃ m, g b = .error (.dataError m)) →
      (∃ a ∈ l, ∀ c, g a ≠ .ok c) →
      ∃ m, mapExcept g l = .error (.dataError m) := by
  intro l
  induction l with
  | nil => intro _ hbad; obtain ⟨a, ha, _⟩ := hbad; cases ha
  | cons a t ih =>
    intro hall hbad
    rcases hall a (List.mem_cons_self a t) with ⟨c, hc⟩ | ⟨m, hm⟩
    · obtain ⟨b, hb, hbno⟩ := hbad
      rcases List.mem_cons.mp hb with rfl | hbt
      · exact absurd hc (hbno c)
      · obtain ⟨m, hm⟩ := ih (fun b hb => hall b (List.mem_cons_of_mem a hb)) ⟨b, hbt, hbno⟩
        exact ⟨m, by simp [mapExcept, hc, hm]⟩
    · exact ⟨m, by simp [mapExcept, hm]⟩

theorem findNearestIndexCore_lt (x : List ℚ) (X : ℚ) (hx : 0 < x.length) :
    findNearestIndexCore x X < x.length := by
  unfold findNearestIndexCore
  have key : ∀ (l : List ℕ) (s : ℕ × ℚ), (∀ i ∈ l, i < x.length) → s.1 < x.length →
      ((l.foldl (fun s i =>
        let dist := |x.getD i 0 - X|
        if dist < s.2 then (i, dist) else s) s).1 < x.length) := by
    intro l
    induction l with
    | nil => intro s _ hs; exact hs
    | cons a t ih =>
      intro s hall hs
      simp only [List.foldl_cons]
      apply ih
      · exact fun i hi => hall i (List.mem_cons_of_mem a hi)
      · show (if |x.getD a 0 - X| < s.2 then (a, |x.getD a 0 - X|) else s).1 < x.length
        split_ifs with hd
        · exact hall a (List.mem_cons_self a t)
        · exact hs
  apply key
  · intro i hi
    have := List.mem_range'_1.mp hi
    omega
  · simpa using hx

theorem get5PointStencilIndices_ok (table : TabularFunction) (Xk : ℚ)
    (h5 : 5 ≤ table.x.length) :
    get5PointStencilIndices table Xk =
      .ok ((List.range 5).map fun i => stencilStart table.x Xk + Int.ofNat i) := by
  unfold stencilStart
  unfold get5PointStencilIndices findNearestIndex
  have h1 : ¬ table.x.length < 5 := by omega
  have h2 : ¬ table.x.length = 0 := by omega
  simp only [h1, if_false, h2, if_false]
  congr 1
  apply List.map_congr_left
  intro i _
  congr 1
  split_ifs <;> omega

/-! ## Bridge to Mathlib's Lagrange interpolation -/

theorem interpolateLagrangeAtPoint_eq (x f : List ℚ) (Xk : ℚ) :
    interpolateLagrangeAtPoint x f Xk =
      (Lagrange.interpolate (Finset.range x.length) (fun i => x.getD i 0)
        (fun i => f.getD i 0)).eval Xk := by
  rw [Lagrange.interpolate_apply, Polynomial.eval_finset_sum]
  unfold interpolateLagrangeAtPoint
  refine Finset.sum_congr rfl fun i _ => ?_
  rw [Polynomial.eval_mul, Polynomial.eval_C]
  congr 1
  unfold Lagrange.basis
  rw [Polynomial.eval_prod]
  refine Finset.prod_congr rfl fun j _ => ?_
  unfold Lagrange.basisDivisor
  rw [Polynomial.eval_mul, Polynomial.eval_C, Polynomial.eval_sub, Polynomial.eval_X,
    Polynomial.eval_C]
  rw [div_eq_mul_inv, mul_comm]

theorem horner_foldl (x coef : List ℚ) (Xk : ℚ) :
    ∀ (m : ℕ) (a : ℚ),
      ((List.range m).reverse).foldl
        (fun result i => result * (Xk - x.getD i 0) + coef.getD i 0) a
      = a * ∏ l ∈ Finset.range m, (Xk - x.getD l 0)
        + ∑ j ∈ Finset.range m, coef.getD j 0 * ∏ l ∈ Finset.range j, (Xk - x.getD l 0) := by
  intro m
  induction m with
  | zero => intro a; simp
  | succ m ih =>
    intro a
    rw [List.range_succ, List.reverse_append]
    simp only [List.reverse_cons, List.reverse_nil, List.nil_append, List.singleton_append,
      List.foldl_cons]
    rw [ih, Finset.prod_range_succ, Finset.sum_range_succ]
    ring

theorem evaluateNewtonAtPoint_eq_sum (x coef : List ℚ) (Xk : ℚ) (hn : 1 ≤ x.length) :
    evaluateNewtonAtPoint x coef Xk
      = ∑ j ∈ Finset.range x.length,
          coef.getD j 0 * ∏ l ∈ Finset.range j, (Xk - x.getD l 0) := by
  unfold evaluateNewtonAtPoint
  rw [horner_foldl]
  have hx : x.length = (x.length - 1) + 1 := by omega
  conv_rhs => rw [hx]
  rw [Finset.sum_range_succ]
  ring

/-! ## Divided differences and the `buildNewtonCoefficients` loop invariant -/

theorem newtonPass_length (x : List ℚ) (j : ℕ) (coef : List ℚ) :
    (newtonPass x j coef).length = coef.length := by
  simp [newtonPass]

theorem newtonPass_getD (x : List ℚ) (j : ℕ) (coef : List ℚ) {i : ℕ} (hi : i < coef.length) :
    (newtonPass x j coef).getD i 0 =
      if j ≤ i ∧ i < x.length then
        (coef.getD i 0 - coef.getD (i - 1) 0) / (x.getD i 0 - x.getD (i - j) 0)
      else coef.getD i 0 := by
  unfold newtonPass
  rw [List.getD_eq_getElem?_getD, List.getElem?_map, List.getElem?_range hi]
  simp

theorem buildNewton_fold_invariant (x f : List ℚ) (hlen : f.length = x.length) :
    ∀ J, J ≤ x.length - 1 →
      ((List.range' 1 J).foldl (fun coef j => newtonPass x j coef) f).length = f.length ∧
      ∀ i, i < f.length →
        ((List.range' 1 J).foldl (fun coef j => newtonPass x j coef) f).getD i 0 =
          if i ≤ J then dd x f 0 i else dd x f (i - J) J := by
  intro J
  induction J with
  | zero =>
    intro _
    refine ⟨rfl, fun i hi => ?_⟩
    show f.getD i 0 = _
    split_ifs with h0
    · have : i = 0 := by omega
      subst this; rfl
    · simp [dd]
  | succ J ih =>
    intro hJ
    obtain ⟨ihlen, ihget⟩ := ih (by omega)
    have hconcat : List.range' 1 (J + 1) = List.range' 1 J ++ [J + 1] := by
      rw [List.range'_concat]
      simp [Nat.add_comm]
    rw [hconcat, List.foldl_append]
    simp only [List.foldl_cons, List.foldl_nil]
    constructor
    · rw [newtonPass_length, ihlen]
    · intro i hi
      have hic : i < ((List.range' 1 J).foldl (fun coef j => newtonPass x j coef) f).length := by
        rw [ihlen]; exact hi
      rw [newtonPass_getD x (J + 1) _ hic]
      by_cases hcase : J + 1 ≤ i ∧ i < x.length
      · rw [if_pos hcase]
        have hgi := ihget i hi
        have hgi1 := ihget (i - 1) (by omega)
        rw [if_neg (by omega)] at hgi
        have hgi1' : ((List.range' 1 J).foldl (fun coef j => newtonPass x j coef) f).getD (i - 1) 0
            = dd x f (i - 1 - J) J := by
          rw [hgi1]
          split_ifs with hle
          · have h1 : i - 1 = J := by omega
            rw [h1]
            simp [Nat.sub_self]
          · rfl
        rw [hgi, hgi1']
        split_ifs with hle
        · have hiJ : i = J + 1 := by omega
          subst hiJ
          have e1 : J + 1 - J = 1 := by omega
          have e2 : J + 1 - 1 - J = 0 := by omega
          have e3 : J + 1 - (J + 1) = 0 := by omega
          rw [e1, e2, e3, dd]
          norm_num
        · rw [dd]
          have e1 : i - (J + 1) + 1 = i - J := by omega
          have e2 : i - 1 - J = i - (J + 1) := by omega
          have e3 : i - (J + 1) + J + 1 = i := by omega
          rw [e1, e2, e3]
      · rw [if_neg hcase]
        rw [ihget i hi]
        have hix : i < x.length := by rw [← hlen]; exact hi
        have hiJ : i ≤ J := by
          rcases not_and_or.mp hcase with h | h
          · omega
          · exact absurd hix h
        rw [if_pos hiJ, if_pos (by omega)]

theorem buildNewtonCoefficients_length (x : List ℚ) :
    ∀ (l : List ℕ) (c : List ℚ),
      (l.foldl (fun coef j => newtonPass x j coef) c).length = c.length := by
  intro l
  induction l with
  | nil => intro c; rfl
  | cons a t ih =>
    intro c
    simp only [List.foldl_cons]
    rw [ih, newtonPass_length]

theorem buildNewtonCoefficients_getD (x f : List ℚ) (hlen : f.length = x.length)
    {i : ℕ} (hi : i < f.length) :
    (buildNewtonCoefficients x f).getD i 0 = dd x f 0 i := by
  unfold buildNewtonCoefficients
  obtain ⟨_, hget⟩ := buildNewton_fold_invariant x f hlen (x.length - 1) le_rfl
  rw [hget i hi]
  split_ifs with h
  · rfl
  · exfalso
    have hix : i < x.length := by rw [← hlen]; exact hi
    omega

/-! ## Newton's form equals the Lagrange interpolant (exact arithmetic) -/

theorem injOn_nodes (x : List ℚ) (hx : isStrictlyIncreasing x = true) (s : Finset ℕ)
    (hs : ∀ i ∈ s, i < x.length) :
    Set.InjOn (fun i => x.getD i 0) ↑s := by
  intro i hi j hj hij
  simp only [Finset.mem_coe] at hi hj
  simp only at hij
  by_contra hne
  rcases Nat.lt_or_ge i j with h | h
  · exact absurd hij (ne_of_lt (isStrictlyIncreasing_getD hx h (hs j hj)))
  · have h2 : j < i := by omega
    exact absurd hij.symm (ne_of_lt (isStrictlyIncreasing_getD hx h2 (hs i hi)))

theorem injOn_Icc_nodes (x : List ℚ) (hx : isStrictlyIncreasing x = true) {a b : ℕ}
    (hb : b < x.length) :
    Set.InjOn (fun i => x.getD i 0) ↑(Finset.Icc a b) := by
  refine injOn_nodes x hx _ fun i hi => ?_
  rw [Finset.mem_Icc] at hi
  omega

theorem nodeInterp_eval_node (x f : List ℚ) (hx : isStrictlyIncreasing x = true)
    {a b m : ℕ} (ham : a ≤ m) (hmb : m ≤ b) (hb : b < x.length) :
    (nodeInterp x f a b).eval (x.getD m 0) = f.getD m 0 :=
  Lagrange.eval_interpolate_at_node _ (injOn_Icc_nodes x hx hb)
    (Finset.mem_Icc.mpr ⟨ham, hmb⟩)

theorem nodeInterp_degree_lt (x f : List ℚ) (a b : ℕ) (hx : isStrictlyIncreasing x = true)
    (hb : b < x.length) :
    (nodeInterp x f a b).degree < ((b + 1 - a : ℕ) : WithBot ℕ) := by
  have h := Lagrange.degree_interpolate_lt (fun i => f.getD i 0)
    (@injOn_Icc_nodes x hx a b hb)
  rwa [Nat.card_Icc] at h

theorem degree_lt_succ_iff_le (p : Polynomial ℚ) (k : ℕ) :
    p.degree < ((k + 1 : ℕ) : WithBot ℕ) ↔ p.degree ≤ (k : ℕ) := by
  rcases eq_or_ne p 0 with rfl | hp
  · rw [Polynomial.degree_zero]
    constructor
    · intro _; exact bot_le
    · intro _; exact WithBot.bot_lt_coe _
  · rw [← Polynomial.natDegree_lt_iff_degree_lt hp, ← Polynomial.natDegree_le_iff_degree_le]
    omega

theorem degree_linear_mul_lt (c : ℚ) (p : Polynomial ℚ) (k : ℕ)
    (hp : p.degree < (k : ℕ)) :
    ((Polynomial.X - Polynomial.C c) * p).degree < ((k + 1 : ℕ) : WithBot ℕ) := by
  rcases eq_or_ne p 0 with rfl | hp0
  · rw [mul_zero, Polynomial.degree_zero]
    exact WithBot.bot_lt_coe _
  · rw [Polynomial.degree_mul, Polynomial.degree_X_sub_C, Polynomial.degree_eq_natDegree hp0]
    have hk : p.natDegree < k := (Polynomial.natDegree_lt_iff_degree_lt hp0).mpr hp
    exact_mod_cast by omega

/-- Neville's identity between Lagrange interpolants on overlapping windows,
proved by polynomial uniqueness on the `b + 1 - a` nodes of `[a..b]`. -/
theorem neville (x f : List ℚ) (hx : isStrictlyIncreasing x = true)
    {a b : ℕ} (hab : a < b) (hb : b < x.length) :
    Polynomial.C (x.getD b 0 - x.getD a 0) * nodeInterp x f a b
      = (Polynomial.X - Polynomial.C (x.getD a 0)) * nodeInterp x f (a + 1) b
        - (Polynomial.X - Polynomial.C (x.getD b 0)) * nodeInterp x f a (b - 1) := by
  have hvne : x.getD b 0 - x.getD a 0 ≠ 0 :=
    sub_ne_zero.mpr (ne_of_gt (isStrictlyIncreasing_getD hx hab hb))
  have hcard : (b + 1 - a : ℕ) = (b - a) + 1 := by omega
  apply Polynomial.eq_of_degrees_lt_of_eval_index_eq (Finset.Icc a b)
    (injOn_Icc_nodes x hx hb)
  · rw [Nat.card_Icc, Polynomial.degree_C_mul hvne]
    exact nodeInterp_degree_lt x f a b hx hb
  · rw [Nat.card_Icc, hcard]
    have h1 : ((Polynomial.X - Polynomial.C (x.getD a 0)) * nodeInterp x f (a + 1) b).degree
        < (((b - a) + 1 : ℕ) : WithBot ℕ) := by
      apply degree_linear_mul_lt
      have h := nodeInterp_degree_lt x f (a + 1) b hx hb
      have e : (b + 1 - (a + 1) : ℕ) = b - a := by omega
      rwa [e] at h
    have h2 : ((Polynomial.X - Polynomial.C (x.getD b 0)) * nodeInterp x f a (b - 1)).degree
        < (((b - a) + 1 : ℕ) : WithBot ℕ) := by
      apply degree_linear_mul_lt
      have h := nodeInterp_degree_lt x f a (b - 1) hx (by omega)
      have e : (b - 1 + 1 - a : ℕ) = b - a := by omega
      rwa [e] at h
    exact lt_of_le_of_lt (Polynomial.degree_sub_le _ _) (max_lt h1 h2)
  · intro i hi
    rw [Finset.mem_Icc] at hi
    rw [Polynomial.eval_mul, Polynomial.eval_C,
      nodeInterp_eval_node x f hx hi.1 hi.2 hb]
    rw [Polynomial.eval_sub, Polynomial.eval_mul, Polynomial.eval_mul,
      Polynomial.eval_sub, Polynomial.eval_sub, Polynomial.eval_X, Polynomial.eval_C,
      Polynomial.eval_C]
    by_cases hia : i = a
    · subst hia
      rw [nodeInterp_eval_node x f hx (le_refl i) (by omega) (by omega)]
      ring
    · by_cases hib : i = b
      · subst hib
        rw [nodeInterp_eval_node x f hx (by omega) (le_refl i) hb]
        ring
      · rw [nodeInterp_eval_node x f hx (by omega) hi.2 hb,
          nodeInterp_eval_node x f hx hi.1 (by omega) (by omega)]
        ring

theorem coeff_linear_mul (c : ℚ) (p : Polynomial ℚ) (k : ℕ) :
    ((Polynomial.X - Polynomial.C c) * p).coeff (k + 1) = p.coeff k - c * p.coeff (k + 1) := by
  rw [sub_mul, Polynomial.coeff_sub, Polynomial.coeff_X_mul, Polynomial.coeff_C_mul]

/-- The top coefficient of the interpolant over `x[a..a+g]` is the divided
difference `dd a g`. -/
theorem coeff_nodeInterp (x f : List ℚ) (hx : isStrictlyIncreasing x = true) :
    ∀ (g a : ℕ), a + g < x.length →
      (nodeInterp x f a (a + g)).coeff g = dd x f a g := by
  intro g
  induction g with
  | zero =>
    intro a _
    unfold nodeInterp
    rw [Nat.add_zero, Finset.Icc_self, Lagrange.interpolate_singleton]
    simp [dd]
  | succ g ih =>
    intro a ha
    have hab : a < a + (g + 1) := by omega
    have hnev := neville x f hx hab (by omega)
    have hc := congrArg (fun p => Polynomial.coeff p (g + 1)) hnev
    simp only [Polynomial.coeff_C_mul, Polynomial.coeff_sub] at hc
    rw [coeff_linear_mul, coeff_linear_mul] at hc
    have e1 : a + (g + 1) = (a + 1) + g := by omega
    have hcoef1 : (nodeInterp x f (a + 1) (a + (g + 1))).coeff g = dd x f (a + 1) g := by
      rw [e1]
      exact ih (a + 1) (by omega)
    have e2 : a + (g + 1) - 1 = a + g := by omega
    have hcoef2 : (nodeInterp x f a (a + (g + 1) - 1)).coeff g = dd x f a g := by
      rw [e2]
      exact ih a (by omega)
    have hz1 : (nodeInterp x f (a + 1) (a + (g + 1))).coeff (g + 1) = 0 := by
      apply Polynomial.coeff_eq_zero_of_degree_lt
      have h := nodeInterp_degree_lt x f (a + 1) (a + (g + 1)) hx (by omega)
      have e : (a + (g + 1) + 1 - (a + 1) : ℕ) = g + 1 := by omega
      rwa [e] at h
    have hz2 : (nodeInterp x f a (a + (g + 1) - 1)).coeff (g + 1) = 0 := by
      apply Polynomial.coeff_eq_zero_of_degree_lt
      have h := nodeInterp_degree_lt x f a (a + (g + 1) - 1) hx (by omega)
      have e : (a + (g + 1) - 1 + 1 - a : ℕ) = g + 1 := by omega
      rwa [e] at h
    rw [hcoef1, hcoef2, hz1, hz2] at hc
    have hvne : x.getD (a + (g + 1)) 0 - x.getD a 0 ≠ 0 :=
      sub_ne_zero.mpr (ne_of_gt (isStrictlyIncreasing_getD hx hab ha))
    rw [dd]
    have e3 : a + g + 1 = a + (g + 1) := by omega
    rw [e3, eq_div_iff hvne]
    linear_combination hc

theorem degree_lt_of_le_coeff_zero (p : Polynomial ℚ) (k : ℕ)
    (hle : p.degree ≤ (k : ℕ)) (hc : p.coeff k = 0) :
    p.degree < ((k : ℕ) : WithBot ℕ) := by
  rcases lt_or_eq_of_le hle with h | h
  · exact h
  · exfalso
    have hp0 : p ≠ 0 := by
      intro h0
      rw [h0, Polynomial.degree_zero] at h
      exact absurd h.symm (by simp)
    have hnd : p.natDegree = k := Polynomial.natDegree_eq_of_degree_eq_some h
    rw [← hnd] at hc
    exact hp0 (Polynomial.leadingCoeff_eq_zero.mp hc)

/-- The Newton form built from divided differences IS the Lagrange
interpolant on the first `m+1` nodes. -/
theorem newtonPoly_eq_nodeInterp (x f : List ℚ) (hx : isStrictlyIncreasing x = true) :
    ∀ m, m < x.length → newtonPoly x f m = nodeInterp x f 0 m := by
  intro m
  induction m with
  | zero =>
    intro _
    unfold newtonPoly nodeInterp
    rw [Finset.Icc_self, Lagrange.interpolate_singleton]
    simp [dd, Lagrange.nodal_empty]
  | succ m ih =>
    intro hm
    have hstep : newtonPoly x f (m + 1) = newtonPoly x f m
        + Polynomial.C (dd x f 0 (m + 1)) *
          Lagrange.nodal (Finset.range (m + 1)) (fun i => x.getD i 0) := by
      unfold newtonPoly
      rw [Finset.sum_range_succ]
    rw [hstep, ih (by omega)]
    set E := Polynomial.C (dd x f 0 (m + 1)) *
      Lagrange.nodal (Finset.range (m + 1)) (fun i => x.getD i 0) with hE
    have hD : nodeInterp x f 0 (m + 1) - (nodeInterp x f 0 m + E) = 0 := by
      apply Polynomial.eq_zero_of_degree_lt_of_eval_index_eq_zero (Finset.Icc 0 m)
        (injOn_Icc_nodes x hx (by omega))
      · rw [Nat.card_Icc]
        have hdA : (nodeInterp x f 0 (m + 1)).degree ≤ ((m + 1 : ℕ) : WithBot ℕ) := by
          have h := nodeInterp_degree_lt x f 0 (m + 1) hx hm
          have e : (m + 1 + 1 - 0 : ℕ) = (m + 1) + 1 := by omega
          rw [e] at h
          exact (degree_lt_succ_iff_le _ _).mp h
        have hdB : (nodeInterp x f 0 m).degree ≤ ((m + 1 : ℕ) : WithBot ℕ) := by
          have h := nodeInterp_degree_lt x f 0 m hx (by omega)
          have e : (m + 1 - 0 : ℕ) = m + 1 := by omega
          rw [e] at h
          exact le_of_lt h
        have hdE : E.degree ≤ ((m + 1 : ℕ) : WithBot ℕ) := by
          rw [hE]
          rcases eq_or_ne (dd x f 0 (m + 1)) 0 with hz | hz
          · simp [hz]
          · rw [Polynomial.degree_C_mul hz, Lagrange.degree_nodal]
            simp
        have hdeg : (nodeInterp x f 0 (m + 1) - (nodeInterp x f 0 m + E)).degree
            ≤ ((m + 1 : ℕ) : WithBot ℕ) :=
          le_trans (Polynomial.degree_sub_le _ _)
            (max_le hdA (le_trans (Polynomial.degree_add_le _ _) (max_le hdB hdE)))
        have hcz : (nodeInterp x f 0 (m + 1) - (nodeInterp x f 0 m + E)).coeff (m + 1) = 0 := by
          rw [Polynomial.coeff_sub, Polynomial.coeff_add]
          have hc1 : (nodeInterp x f 0 (m + 1)).coeff (m + 1) = dd x f 0 (m + 1) := by
            have := coeff_nodeInterp x f hx (m + 1) 0 (by omega)
            simpa using this
          have hc2 : (nodeInterp x f 0 m).coeff (m + 1) = 0 := by
            apply Polynomial.coeff_eq_zero_of_degree_lt
            have h := nodeInterp_degree_lt x f 0 m hx (by omega)
            have e : (m + 1 - 0 : ℕ) = m + 1 := by omega
            rwa [e] at h
          have hc3 : E.coeff (m + 1) = dd x f 0 (m + 1) := by
            rw [hE, Polynomial.coeff_C_mul]
            have hmon : (Lagrange.nodal (Finset.range (m + 1))
                (fun i => x.getD i 0)).Monic := Lagrange.nodal_monic
            have hnd : (Lagrange.nodal (Finset.range (m + 1))
                (fun i => x.getD i 0)).natDegree = m + 1 := by
              rw [Lagrange.natDegree_nodal, Finset.card_range]
            have := hmon.coeff_natDegree
            rw [hnd] at this
            rw [this, mul_one]
          rw [hc1, hc2, hc3]
          ring
        have := degree_lt_of_le_coeff_zero _ (m + 1) hdeg hcz
        have e : (m + 1 - 0 : ℕ) = m + 1 := by omega
        rw [e]
        exact this
      · intro i hi
        rw [Finset.mem_Icc] at hi
        rw [Polynomial.eval_sub, Polynomial.eval_add]
        rw [nodeInterp_eval_node x f hx (by omega) (by omega) hm]
        rw [nodeInterp_eval_node x f hx (by omega) hi.2 (by omega)]
        have hEz : E.eval (x.getD i 0) = 0 := by
          rw [hE, Polynomial.eval_mul]
          have hnz := @Lagrange.eval_nodal_at_node ℚ _ ℕ (Finset.range (m + 1))
            (fun j => x.getD j 0) i (Finset.mem_range.mpr (by omega : i < m + 1))
          simp only at hnz
          rw [hnz, mul_zero]
        rw [hEz]
        ring
    have := sub_eq_zero.mp hD
    exact this.symm

/-- The code's Newton evaluation agrees with the code's Lagrange evaluation
at every point, for strictly increasing nodes (exact arithmetic). -/
theorem newton_eval_eq_lagrangeAtPoint (x f : List ℚ) (hlen : x.length = f.length)
    (hn : 1 ≤ x.length) (hx : isStrictlyIncreasing x = true) (Xk : ℚ) :
    evaluateNewtonAtPoint x (buildNewtonCoefficients x f) Xk
      = interpolateLagrangeAtPoint x f Xk := by
  rw [evaluateNewtonAtPoint_eq_sum x _ Xk hn, interpolateLagrangeAtPoint_eq]
  have hsum : ∑ j ∈ Finset.range x.length,
      (buildNewtonCoefficients x f).getD j 0 * ∏ l ∈ Finset.range j, (Xk - x.getD l 0)
      = (newtonPoly x f (x.length - 1)).eval Xk := by
    unfold newtonPoly
    rw [Polynomial.eval_finset_sum]
    have hrange : x.length - 1 + 1 = x.length := by omega
    rw [hrange]
    refine Finset.sum_congr rfl fun j hj => ?_
    rw [Polynomial.eval_mul, Polynomial.eval_C, Lagrange.eval_nodal]
    congr 1
    exact buildNewtonCoefficients_getD x f hlen.symm
      (by rw [← hlen]; exact Finset.mem_range.mp hj)
  rw [hsum, newtonPoly_eq_nodeInterp x f hx (x.length - 1) (by omega)]
  unfold nodeInterp
  have hIcc : Finset.Icc 0 (x.length - 1) = Finset.range x.length := by
    ext i
    rw [Finset.mem_Icc, Finset.mem_range]
    omega
  rw [hIcc]

/-! ## The derivative formula of `computeLagrangeDerivativeAtPoint` -/

theorem derivative_finset_prod (s : Finset ℕ) (g : ℕ → Polynomial ℚ) :
    Polynomial.derivative (∏ j ∈ s, g j)
      = ∑ m ∈ s, (∏ j ∈ s.erase m, g j) * Polynomial.derivative (g m) := by
  induction s using Finset.induction_on with
  | empty => simp
  | @insert a s ha ih =>
    rw [Finset.prod_insert ha, Polynomial.derivative_mul, ih, Finset.sum_insert ha,
      Finset.erase_insert ha, Finset.mul_sum]
    congr 1
    · ring
    · refine Finset.sum_congr rfl fun m hm => ?_
      have hma : a ≠ m := fun e => ha (e ▸ hm)
      rw [Finset.erase_insert_of_ne hma,
        Finset.prod_insert (fun h => ha (Finset.mem_of_mem_erase h))]
      ring

/-- The code's triple loop computes the evaluated derivative of the
Lagrange interpolant on all its nodes. -/
theorem computeLagrangeDerivativeAtPoint_eq (x f : List ℚ) (Xk : ℚ) :
    computeLagrangeDerivativeAtPoint x f Xk
      = (Polynomial.derivative (Lagrange.interpolate (Finset.range x.length)
          (fun i => x.getD i 0) (fun i => f.getD i 0))).eval Xk := by
  rw [Lagrange.interpolate_apply, Polynomial.derivative_sum, Polynomial.eval_finset_sum]
  unfold computeLagrangeDerivativeAtPoint
  refine Finset.sum_congr rfl fun i _ => ?_
  rw [Polynomial.derivative_C_mul, Polynomial.eval_mul, Polynomial.eval_C]
  congr 1
  unfold Lagrange.basis
  rw [derivative_finset_prod, Polynomial.eval_finset_sum]
  refine Finset.sum_congr rfl fun m _ => ?_
  rw [Polynomial.eval_mul]
  have hder : Polynomial.derivative (Lagrange.basisDivisor (x.getD i 0) (x.getD m 0))
      = Polynomial.C (x.getD i 0 - x.getD m 0)⁻¹ := by
    unfold Lagrange.basisDivisor
    rw [Polynomial.derivative_C_mul, Polynomial.derivative_X_sub_C, mul_one]
  rw [hder, Polynomial.eval_C, Polynomial.eval_prod, mul_comm, one_div]
  congr 1
  refine Finset.prod_congr rfl fun j _ => ?_
  unfold Lagrange.basisDivisor
  rw [Polynomial.eval_mul, Polynomial.eval_C, Polynomial.eval_sub, Polynomial.eval_X,
    Polynomial.eval_C, div_eq_mul_inv, mul_comm]

/-- On distinct nodes carrying samples of a polynomial of degree `< n`, the
code's derivative formula returns the exact derivative of that polynomial. -/
theorem computeLagrangeDerivativeAtPoint_exact (p : Polynomial ℚ) (xs fs : List ℚ)
    (Xk : ℚ) (hinj : Set.InjOn (fun i => xs.getD i 0) ↑(Finset.range xs.length))
    (hdeg : p.natDegree < xs.length)
    (hsample : ∀ i < xs.length, fs.getD i 0 = p.eval (xs.getD i 0)) :
    computeLagrangeDerivativeAtPoint xs fs Xk = (Polynomial.derivative p).eval Xk := by
  rw [computeLagrangeDerivativeAtPoint_eq]
  have hp : p = Lagrange.interpolate (Finset.range xs.length)
      (fun i => xs.getD i 0) (fun i => fs.getD i 0) := by
    apply Lagrange.eq_interpolate_of_eval_eq _ hinj
    · rw [Finset.card_range]
      calc p.degree ≤ (p.natDegree : WithBot ℕ) := Polynomial.degree_le_natDegree
        _ < (xs.length : WithBot ℕ) := by exact_mod_cast hdeg
    · intro i hi
      exact (hsample i (Finset.mem_range.mp hi)).symm
  rw [← hp]

/-! ## Stencil access lemmas -/

theorem stencilStart_nonneg (x : List ℚ) (Xk : ℚ) (h5 : 5 ≤ x.length) :
    0 ≤ stencilStart x Xk := by
  unfold stencilStart
  omega

theorem stencilStart_add_four_lt (x : List ℚ) (Xk : ℚ) (h5 : 5 ≤ x.length) :
    (stencilStart x Xk).toNat + 4 < x.length := by
  have := findNearestIndexCore_lt x Xk (by omega)
  unfold stencilStart
  omega

theorem stencil_mem_window (x : List ℚ) (Xk : ℚ) (h5 : 5 ≤ x.length) :
    stencilStart x Xk ≤ (findNearestIndexCore x Xk : ℤ) ∧
    (findNearestIndexCore x Xk : ℤ) ≤ stencilStart x Xk + 4 := by
  have := findNearestIndexCore_lt x Xk (by omega)
  unfold stencilStart
  omega

theorem stencil_map_getD (l : List ℚ) (st : ℤ) (hst : 0 ≤ st) {k : ℕ} (hk : k < 5) :
    (((List.range 5).map fun i => st + Int.ofNat i).map (zget l)).getD k 0
      = l.getD (st.toNat + k) 0 := by
  rw [List.map_map, List.getD_eq_getElem?_getD, List.getElem?_map, List.getElem?_range hk]
  show zget l (st + Int.ofNat k) = _
  rw [Int.ofNat_eq_coe]
  unfold zget
  rw [if_pos (by omega)]
  congr 1
  omega

theorem stencil_length (l : List ℚ) (st : ℤ) :
    (((List.range 5).map fun i => st + Int.ofNat i).map (zget l)).length = 5 := by
  simp

theorem validateTabular_error_kind (table : TabularFunction) (m : ℕ) {e : CalcError}
    (h : validateTabular table m = .error e) : ∃ msg, e = .dataError msg := by
  unfold validateTabular at h
  split_ifs at h <;> first
  | (cases h; exact ⟨_, rfl⟩)
  | exact absurd h (by simp)

theorem validatePointsToEvaluate_error_of_out (table : TabularFunction) (X : List ℚ)
    (hne : X ≠ [])
    (hout : ∃ v ∈ X, v < table.x.getD 0 0 ∨ table.x.getD (table.x.length - 1) 0 < v) :
    validatePointsToEvaluate table X true
      = .error (.dataError "Point X is outside of the tabular data range.") := by
  unfold validatePointsToEvaluate
  rw [if_neg (by simpa [List.length_eq_zero] using hne)]
  obtain ⟨v, hv, hvout⟩ := hout
  have hany : X.any (fun v =>
      decide (v < table.x.getD 0 0) ||
      decide (table.x.getD (table.x.length - 1) 0 < v)) = true := by
    refine List.any_eq_true.mpr ⟨v, hv, ?_⟩
    rw [Bool.or_eq_true, decide_eq_true_eq, decide_eq_true_eq]
    exact hvout
  rw [if_pos (by rw [Bool.true_and]; exact hany)]

theorem validatePointsToEvaluate_false_ok (table : TabularFunction) (X : List ℚ)
    (hne : X ≠ []) : validatePointsToEvaluate table X false = .ok () := by
  rw [validatePointsToEvaluate_ok_iff]
  exact ⟨hne, by simp⟩

theorem getApproximateStep_eq (x : List ℚ) (tol : ℚ) (h2 : 2 ≤ x.length) :
    getApproximateStep x tol =
      if (gridSteps x).any (fun step =>
          decide (tol < |step - (gridSteps x).sum / ((gridSteps x).length : ℚ)|)) then none
      else some ((gridSteps x).sum / ((gridSteps x).length : ℚ)) := by
  unfold getApproximateStep
  rw [if_neg (by omega)]

theorem gridSteps_length (x : List ℚ) : (gridSteps x).length = x.length - 1 := by
  unfold gridSteps
  simp

theorem gridSteps_pos (x : List ℚ) (hx : isStrictlyIncreasing x = true) :
    ∀ s ∈ gridSteps x, 0 < s := by
  intro s hsm
  unfold gridSteps at hsm
  rw [List.mem_map] at hsm
  obtain ⟨i, hi, rfl⟩ := hsm
  rw [List.mem_range] at hi
  have := isStrictlyIncreasing_getD hx (Nat.lt_succ_self i) (by omega)
  linarith

theorem getApproximateStep_pos (x : List ℚ) (tol h : ℚ)
    (hx : isStrictlyIncreasing x = true) (h2 : 2 ≤ x.length)
    (hs : getApproximateStep x tol = some h) : 0 < h := by
  rw [getApproximateStep_eq x tol h2] at hs
  split_ifs at hs with hany
  have hval := Option.some.inj hs
  rw [← hval]
  have hnil : gridSteps x ≠ [] := by
    intro hn
    have hl := gridSteps_length x
    rw [hn] at hl
    simp at hl
    omega
  have hsum : 0 < (gridSteps x).sum := List.sum_pos _ (gridSteps_pos x hx) hnil
  have hlpos : (0 : ℚ) < ((gridSteps x).length : ℚ) := by
    rw [gridSteps_length]
    exact_mod_cast (by omega : 0 < x.length - 1)
  positivity

/-! ## Claims -/

/-- C1: for every table `(x, f)` with `x` strictly increasing (and the other
`validateTabular` conditions) and every point list accepted by
`validatePointsToEvaluate`, `interpolateNewton` (divided-difference
coefficients then Horner-style evaluation) returns exactly the same result
as `interpolateLagrange`: the two interpolation embeddings are equal
functions on every valid input (exact arithmetic). -/
theorem newton_eq_lagrange_on_valid (table : TabularFunction) (X : List ℚ)
    (hv : validateTabular table 2 = .ok ())
    (hX : validatePointsToEvaluate table X false = .ok ()) :
    interpolateNewton table X = interpolateLagrange table X := by
  obtain ⟨hlen, hmin, hmono⟩ := (validateTabular_ok_iff table 2).mp hv
  unfold interpolateNewton interpolateLagrange
  rw [hv, hX]
  have hmapeq : X.map (fun Xk =>
        evaluateNewtonAtPoint table.x (buildNewtonCoefficients table.x table.f) Xk)
      = X.map (fun Xk => interpolateLagrangeAtPoint table.x table.f Xk) :=
    List.map_congr_left fun Xk _ =>
      newton_eval_eq_lagrangeAtPoint table.x table.f hlen (by omega) hmono Xk
  exact congrArg (fun F =>
    (Except.ok { X := X, F := F } : Except CalcError InterpolationResult)) hmapeq

/-- Witness for C1 on the spec's own example table. -/
theorem newton_eq_lagrange_on_valid_witness :
    validateTabular ⟨[-1, 0, 2], [2, 3, 11]⟩ 2 = .ok () ∧
    interpolateNewton ⟨[-1, 0, 2], [2, 3, 11]⟩ [1/2, 1]
      = interpolateLagrange ⟨[-1, 0, 2], [2, 3, 11]⟩ [1/2, 1] :=
  ⟨by decide, newton_eq_lagrange_on_valid ⟨[-1, 0, 2], [2, 3, 11]⟩ [1/2, 1]
    (by decide) (by decide)⟩

/-- C2: for every polynomial `p` of degree `≤ n-1` and every valid table of
`n ≥ 2` strictly increasing nodes sampled from `p`, both the Lagrange
evaluation and the Newton evaluation return exactly `p(Xk)` at every point
(exact arithmetic), so the two methods also agree with each other. -/
theorem interpolation_reproduces_polynomial (p : Polynomial ℚ) (table : TabularFunction)
    (Xk : ℚ) (hdeg : p.natDegree ≤ table.x.length - 1)
    (hv : validateTabular table 2 = .ok ())
    (hsample : ∀ i < table.x.length, table.f.getD i 0 = p.eval (table.x.getD i 0)) :
    interpolateLagrangeAtPoint table.x table.f Xk = p.eval Xk ∧
    evaluateNewtonAtPoint table.x (buildNewtonCoefficients table.x table.f) Xk
      = p.eval Xk := by
  obtain ⟨hlen, hmin, hmono⟩ := (validateTabular_ok_iff table 2).mp hv
  have hL : interpolateLagrangeAtPoint table.x table.f Xk = p.eval Xk := by
    rw [interpolateLagrangeAtPoint_eq]
    have hp : p = Lagrange.interpolate (Finset.range table.x.length)
        (fun i => table.x.getD i 0) (fun i => table.f.getD i 0) := by
      apply Lagrange.eq_interpolate_of_eval_eq _
        (injOn_nodes table.x hmono _ fun i hi => Finset.mem_range.mp hi)
      · rw [Finset.card_range]
        calc p.degree ≤ (p.natDegree : WithBot ℕ) := Polynomial.degree_le_natDegree
          _ < (table.x.length : WithBot ℕ) := by
            exact_mod_cast (by omega : p.natDegree < table.x.length)
      · intro i hi
        exact (hsample i (Finset.mem_range.mp hi)).symm
    rw [← hp]
  exact ⟨hL, by
    rw [newton_eval_eq_lagrangeAtPoint table.x table.f hlen (by omega) hmono Xk]
    exact hL⟩

/-- Witness for C2: the quadratic `X² + 2X + 3` on nodes `[-1, 0, 2]`
(the spec's test scenario 8), evaluated at `1/2`: both methods return
exactly `17/4`. -/
theorem interpolation_reproduces_polynomial_witness :
    interpolateLagrangeAtPoint [-1, 0, 2] [2, 3, 11] (1/2) = (17/4 : ℚ) ∧
    evaluateNewtonAtPoint [-1, 0, 2]
      (buildNewtonCoefficients [-1, 0, 2] [2, 3, 11]) (1/2) = (17/4 : ℚ) := by
  have hdeg2 : (Polynomial.X ^ 2 + Polynomial.C 2 * Polynomial.X
      + Polynomial.C 3 : Polynomial ℚ).natDegree ≤ 2 := by compute_degree
  have hsample : ∀ i < (⟨[-1, 0, 2], [2, 3, 11]⟩ : TabularFunction).x.length,
      (⟨[-1, 0, 2], [2, 3, 11]⟩ : TabularFunction).f.getD i 0
        = (Polynomial.X ^ 2 + Polynomial.C 2 * Polynomial.X
            + Polynomial.C 3 : Polynomial ℚ).eval
          ((⟨[-1, 0, 2], [2, 3, 11]⟩ : TabularFunction).x.getD i 0) := by
    intro i hi
    have hi3 : i < 3 := hi
    interval_cases i <;>
      norm_num [List.getD, Polynomial.eval_add, Polynomial.eval_mul, Polynomial.eval_pow,
        Polynomial.eval_C, Polynomial.eval_X]
  have h := interpolation_reproduces_polynomial
    (Polynomial.X ^ 2 + Polynomial.C 2 * Polynomial.X + Polynomial.C 3 : Polynomial ℚ)
    ⟨[-1, 0, 2], [2, 3, 11]⟩ (1/2) hdeg2 (by decide) hsample
  have hval : (Polynomial.X ^ 2 + Polynomial.C 2 * Polynomial.X
      + Polynomial.C 3 : Polynomial ℚ).eval (1/2 : ℚ) = (17/4 : ℚ) := by
    norm_num [Polynomial.eval_add, Polynomial.eval_mul, Polynomial.eval_pow,
      Polynomial.eval_C, Polynomial.eval_X]
  exact ⟨by rw [← hval]; exact h.1, by rw [← hval]; exact h.2⟩

/-- C4: for a value array of length `n ≥ 5`, an index `i ≤ n-1` and a
nonzero step `h`, `finiteDifference5AtIndex` applies exactly the formula
the spec assigns to `i`'s range — forward at `i=0`, shifted forward at
`i=1`, central for `2 ≤ i ≤ n-3`, shifted backward at `i=n-2`, backward at
`i=n-1` — and the five index ranges are mutually exclusive, so the testing
order cannot change which formula applies. -/
theorem finiteDifference5_formulas (f : List ℚ) (i : ℕ) (h : ℚ)
    (hn : 5 ≤ f.length) (hi : i ≤ f.length - 1) (hh : h ≠ 0) :
    (i = 0 → finiteDifference5AtIndex f i h =
      .ok ((-25 * f.getD 0 0 + 48 * f.getD 1 0 - 36 * f.getD 2 0
            + 16 * f.getD 3 0 - 3 * f.getD 4 0) / (12 * h))) ∧
    (i = 1 → finiteDifference5AtIndex f i h =
      .ok ((-3 * f.getD 0 0 - 10 * f.getD 1 0 + 18 * f.getD 2 0
            - 6 * f.getD 3 0 + f.getD 4 0) / (12 * h))) ∧
    (2 ≤ i ∧ i ≤ f.length - 3 → finiteDifference5AtIndex f i h =
      .ok ((f.getD (i - 2) 0 - 8 * f.getD (i - 1) 0 + 8 * f.getD (i + 1) 0
            - f.getD (i + 2) 0) / (12 * h))) ∧
    (i = f.length - 2 → finiteDifference5AtIndex f i h =
      .ok ((3 * f.getD (f.length - 1) 0 + 10 * f.getD (f.length - 2) 0
            - 18 * f.getD (f.length - 3) 0 + 6 * f.getD (f.length - 4) 0
            - f.getD (f.length - 5) 0) / (12 * h))) ∧
    (i = f.length - 1 → finiteDifference5AtIndex f i h =
      .ok ((25 * f.getD (f.length - 1) 0 - 48 * f.getD (f.length - 2) 0
            + 36 * f.getD (f.length - 3) 0 - 16 * f.getD (f.length - 4) 0
            + 3 * f.getD (f.length - 5) 0) / (12 * h))) ∧
    (¬ (i = 0 ∧ i = 1)) ∧ (¬ (i = 0 ∧ 2 ≤ i ∧ i ≤ f.length - 3)) ∧
    (¬ (i = 0 ∧ i = f.length - 2)) ∧ (¬ (i = 0 ∧ i = f.length - 1)) ∧
    (¬ (i = 1 ∧ 2 ≤ i ∧ i ≤ f.length - 3)) ∧ (¬ (i = 1 ∧ i = f.length - 2)) ∧
    (¬ (i = 1 ∧ i = f.length - 1)) ∧
    (¬ ((2 ≤ i ∧ i ≤ f.length - 3) ∧ i = f.length - 2)) ∧
    (¬ ((2 ≤ i ∧ i ≤ f.length - 3) ∧ i = f.length - 1)) ∧
    (¬ (i = f.length - 2 ∧ i = f.length - 1)) := by
  unfold finiteDifference5AtIndex
  simp only []
  have hn5 : ¬ f.length < 5 := by omega
  refine ⟨?_, ?_, ?_, ?_, ?_, by omega, by omega, by omega, by omega, by omega,
    by omega, by omega, by omega, by omega, by omega⟩
  · intro h0
    subst h0
    rw [if_neg hn5, if_pos rfl]
  · intro h1
    subst h1
    rw [if_neg hn5, if_neg (by omega), if_pos rfl]
  · intro ⟨h2i, h3i⟩
    rw [if_neg hn5, if_neg (by omega), if_neg (by omega), if_neg (by omega),
      if_neg (by omega)]
  · intro he
    subst he
    rw [if_neg hn5, if_neg (by omega), if_neg (by omega), if_pos rfl]
  · intro he
    subst he
    rw [if_neg hn5, if_neg (by omega), if_neg (by omega), if_neg (by omega), if_pos rfl]

/-- Witness for C4: the central formula at `i = 2` in a 5-value array. -/
theorem finiteDifference5_formulas_witness :
    finiteDifference5AtIndex [0, 1, 2, 3, 4] 2 1 = .ok 1 := by
  have h := (finiteDifference5_formulas [0, 1, 2, 3, 4] 2 1 (by decide) (by decide)
    (by decide)).2.2.1 ⟨by decide, by decide⟩
  rw [h]
  congr 1
  norm_num [List.getD]

/-- C7: for a table with `n ≥ 5` nodes, the stencil is five consecutive
indices starting at a clamped start with `0 ≤ start ≤ n-5` (never reading
outside `[0, n-1]`), the window contains the nearest-node index, the start
equals the low clamp (`max · 0`) followed by the high clamp
(`min · (n-5)`), and with fewer than 5 nodes the call fails with a
`DataError`. -/
theorem stencil_window_spec (table : TabularFunction) (Xk : ℚ) :
    (5 ≤ table.x.length →
      get5PointStencilIndices table Xk =
        .ok [stencilStart table.x Xk, stencilStart table.x Xk + 1,
          stencilStart table.x Xk + 2, stencilStart table.x Xk + 3,
          stencilStart table.x Xk + 4] ∧
      0 ≤ stencilStart table.x Xk ∧
      stencilStart table.x Xk + 4 ≤ (table.x.length : ℤ) - 1 ∧
      stencilStart table.x Xk = min (max ((findNearestIndexCore table.x Xk : ℤ) - 2) 0)
        ((table.x.length : ℤ) - 5) ∧
      stencilStart table.x Xk ≤ (findNearestIndexCore table.x Xk : ℤ) ∧
      (findNearestIndexCore table.x Xk : ℤ) ≤ stencilStart table.x Xk + 4) ∧
    (table.x.length < 5 →
      ∃ m, get5PointStencilIndices table Xk = .error (.dataError m)) := by
  constructor
  · intro h5
    refine ⟨?_, stencilStart_nonneg _ _ h5, ?_, rfl,
      (stencil_mem_window _ _ h5).1, (stencil_mem_window _ _ h5).2⟩
    · rw [get5PointStencilIndices_ok table Xk h5]
      congr 1
      simp [show List.range 5 = [0, 1, 2, 3, 4] from rfl, Int.ofNat_eq_coe]
    · have := stencilStart_add_four_lt table.x Xk h5
      have := stencilStart_nonneg table.x Xk h5
      omega
  · intro h5
    unfold get5PointStencilIndices
    rw [if_pos h5]
    exact ⟨_, rfl⟩

/-- Witness for C7 on a concrete 5-node table. -/
theorem stencil_window_spec_witness :
    get5PointStencilIndices ⟨[0, 1, 2, 3, 4], [0, 0, 0, 0, 0]⟩ 3
        = .ok [stencilStart [0, 1, 2, 3, 4] 3, stencilStart [0, 1, 2, 3, 4] 3 + 1,
          stencilStart [0, 1, 2, 3, 4] 3 + 2, stencilStart [0, 1, 2, 3, 4] 3 + 3,
          stencilStart [0, 1, 2, 3, 4] 3 + 4] ∧
      0 ≤ stencilStart [0, 1, 2, 3, 4] 3 := by
  have h := (stencil_window_spec ⟨[0, 1, 2, 3, 4], [0, 0, 0, 0, 0]⟩ 3).1 (by decide)
  exact ⟨h.1, h.2.1⟩

/-- C9: extrapolation is permitted for interpolation but forbidden for
differentiation: on a valid table and finite non-empty `X` containing an
out-of-range point, both interpolators return normally while both
differentiation methods fail with a `DataError`. -/
theorem extrapolation_policy (table : TabularFunction) (X : List ℚ)
    (hv : validateTabular table 2 = .ok ()) (hne : X ≠ [])
    (hout : ∃ Xk ∈ X, Xk < table.x.getD 0 0 ∨ table.x.getD (table.x.length - 1) 0 < Xk) :
    (∃ r, interpolateLagrange table X = .ok r) ∧
    (∃ r, interpolateNewton table X = .ok r) ∧
    (∃ m, differentiateByInterpolation5 table X = .error (.dataError m)) ∧
    (∃ m, differentiateByApproximation5 table X = .error (.dataError m)) := by
  have hXfalse := validatePointsToEvaluate_false_ok table X hne
  have hXtrue := validatePointsToEvaluate_error_of_out table X hne hout
  refine ⟨?_, ?_, ?_, ?_⟩
  · unfold interpolateLagrange
    rw [hv, hXfalse]
    exact ⟨_, rfl⟩
  · unfold interpolateNewton
    rw [hv, hXfalse]
    exact ⟨_, rfl⟩
  · unfold differentiateByInterpolation5
    cases hv5 : validateTabular table 5 with
    | error e =>
      obtain ⟨msg, rfl⟩ := validateTabular_error_kind table 5 hv5
      exact ⟨msg, rfl⟩
    | ok u =>
      cases u
      have h5 : 5 ≤ table.x.length :=
        ((validateTabular_ok_iff table 5).mp hv5).2.1
      have hmin : validateMinPointsForMethod table 5 "interpolation5" = .ok () :=
        (validateMinPointsForMethod_ok_iff table 5 "interpolation5").mpr h5
      rw [hmin, hXtrue]
      exact ⟨_, rfl⟩
  · unfold differentiateByApproximation5
    cases hv5 : validateTabular table 5 with
    | error e =>
      obtain ⟨msg, rfl⟩ := validateTabular_error_kind table 5 hv5
      exact ⟨msg, rfl⟩
    | ok u =>
      cases u
      obtain ⟨hlen5, h5, hmono5⟩ := (validateTabular_ok_iff table 5).mp hv5
      have hmin : validateMinPointsForMethod table 5 "approximation5" = .ok () :=
        (validateMinPointsForMethod_ok_iff table 5 "approximation5").mpr h5
      rw [hmin]
      cases hstep : getApproximateStep table.x (1 / 1000000) with
      | none => exact ⟨_, rfl⟩
      | some hstp =>
        have hpos : 0 < hstp :=
          getApproximateStep_pos table.x _ hstp hmono5 (by omega) hstep
        simp only []
        rw [if_neg (by rw [abs_eq_zero]; exact ne_of_gt hpos), hXtrue]
        exact ⟨_, rfl⟩

/-- Witness for C9: a valid 2-node table with an out-of-range point. -/
theorem extrapolation_policy_witness :
    (∃ r, interpolateLagrange ⟨[0, 1], [5, 7]⟩ [3] = .ok r) ∧
    (∃ r, interpolateNewton ⟨[0, 1], [5, 7]⟩ [3] = .ok r) ∧
    (∃ m, differentiateByInterpolation5 ⟨[0, 1], [5, 7]⟩ [3] = .error (.dataError m)) ∧
    (∃ m, differentiateByApproximation5 ⟨[0, 1], [5, 7]⟩ [3] = .error (.dataError m)) :=
  extrapolation_policy ⟨[0, 1], [5, 7]⟩ [3] (by decide) (by decide)
    ⟨3, by decide, by right; decide⟩

/-! ## Differentiation summary helpers -/

theorem buildDiffSummary_rows (table : TabularFunction) (X : List ℚ) :
    (buildDifferentiationMethodsSummary table X).rows =
      (List.range X.length).map (fun i =>
        ({ X := X.getD i 0,
           interpolation5 := (differentiateByInterpolation5 table X).toOption.bind
             (fun r => r.Fd.get? i),
           approximation5 := (differentiateByApproximation5 table X).toOption.bind
             (fun r => r.Fd.get? i),
           absDiff := match (differentiateByInterpolation5 table X).toOption.bind
               (fun r => r.Fd.get? i), (differentiateByApproximation5 table X).toOption.bind
               (fun r => r.Fd.get? i) with
             | some a, some b => some |a - b|
             | _, _ => none } : DifferentiationComparisonRow)) := rfl

theorem buildDiffSummary_mean (table : TabularFunction) (X : List ℚ) :
    (buildDifferentiationMethodsSummary table X).meanAbsDiff =
      (if 0 < (((buildDifferentiationMethodsSummary table X).rows).filterMap
          (fun r => r.absDiff)).length then
        some ((((buildDifferentiationMethodsSummary table X).rows).filterMap
            (fun r => r.absDiff)).sum
          / ((((buildDifferentiationMethodsSummary table X).rows).filterMap
            (fun r => r.absDiff)).length : ℚ)) else none) := rfl

theorem buildDiffSummary_max (table : TabularFunction) (X : List ℚ) :
    (buildDifferentiationMethodsSummary table X).maxAbsDiff =
      (if 0 < (((buildDifferentiationMethodsSummary table X).rows).filterMap
          (fun r => r.absDiff)).length then
        some ((((buildDifferentiationMethodsSummary table X).rows).filterMap
            (fun r => r.absDiff)).foldl (fun m d => if m < d then d else m) 0) else none) := rfl

theorem buildDiffSummary_stats_none (table : TabularFunction) (X : List ℚ)
    (habs : ∀ row ∈ (buildDifferentiationMethodsSummary table X).rows, row.absDiff = none) :
    (buildDifferentiationMethodsSummary table X).meanAbsDiff = none ∧
    (buildDifferentiationMethodsSummary table X).maxAbsDiff = none := by
  have hdiffs : ((buildDifferentiationMethodsSummary table X).rows).filterMap
      (fun r => r.absDiff) = [] := List.filterMap_eq_nil.mpr habs
  rw [buildDiffSummary_mean, buildDiffSummary_max, hdiffs]
  norm_num

theorem d5i_ok_shape (table : TabularFunction) (X : List ℚ) (r : DerivativeResult)
    (h : differentiateByInterpolation5 table X = .ok r) :
    r.X = X ∧ r.Fd.length = X.length := by
  unfold differentiateByInterpolation5 at h
  split at h
  · exact absurd h (by simp)
  · split at h
    · exact absurd h (by simp)
    · split at h
      · exact absurd h (by simp)
      · split at h
        · exact absurd h (by simp)
        · rename_i Fd hmap
          cases h
          exact ⟨rfl, mapExcept_length hmap⟩

theorem d5a_ok_shape (table : TabularFunction) (X : List ℚ) (r : DerivativeResult)
    (h : differentiateByApproximation5 table X = .ok r) :
    r.X = X ∧ r.Fd.length = X.length := by
  unfold differentiateByApproximation5 at h
  split at h
  · exact absurd h (by simp)
  · split at h
    · exact absurd h (by simp)
    · split at h
      · exact absurd h (by simp)
      · split at h
        · exact absurd h (by simp)
        · split at h
          · exact absurd h (by simp)
          · simp only [] at h
            split at h
            · exact absurd h (by simp)
            · rename_i Fd hmap
              cases h
              exact ⟨rfl, mapExcept_length hmap⟩

theorem Fd_get?_of_length {Fd : List ℚ} {k : ℕ} (hk : k < Fd.length) :
    Fd.get? k = some (Fd.getD k 0) := by
  rw [List.get?_eq_getElem?, List.getElem?_eq_getElem hk, List.getD_eq_getElem?_getD,
    List.getElem?_eq_getElem hk]
  rfl

/-- C10: `buildDifferentiationMethodsSummary` is total at the public
interface (the embedding is a total function: every failure of the two
underlying methods is caught): it always returns exactly `X.length` rows,
row `k` carries `X[k]`, and when both methods fail every
`interpolation5`/`approximation5`/`absDiff` field is `none` and both
aggregates are `none`. -/
theorem summary_total (table : TabularFunction) (X : List ℚ) :
    (buildDifferentiationMethodsSummary table X).rows.length = X.length ∧
    (∀ k, k < X.length → ∃ row, (buildDifferentiationMethodsSummary table X).rows.get? k
        = some row ∧ row.X = X.getD k 0) ∧
    (∀ ei ea, differentiateByInterpolation5 table X = .error ei →
      differentiateByApproximation5 table X = .error ea →
      (∀ row ∈ (buildDifferentiationMethodsSummary table X).rows,
        row.interpolation5 = none ∧ row.approximation5 = none ∧ row.absDiff = none) ∧
      (buildDifferentiationMethodsSummary table X).meanAbsDiff = none ∧
      (buildDifferentiationMethodsSummary table X).maxAbsDiff = none) := by
  refine ⟨by rw [buildDiffSummary_rows]; simp, ?_, ?_⟩
  · intro k hk
    rw [buildDiffSummary_rows, List.get?_eq_getElem?, List.getElem?_map,
      List.getElem?_range hk]
    exact ⟨_, rfl, rfl⟩
  · intro ei ea hi ha
    have hnone : ∀ row ∈ (buildDifferentiationMethodsSummary table X).rows,
        row.interpolation5 = none ∧ row.approximation5 = none ∧ row.absDiff = none := by
      intro row hrow
      rw [buildDiffSummary_rows, List.mem_map] at hrow
      obtain ⟨i, _, rfl⟩ := hrow
      rw [hi, ha]
      exact ⟨rfl, rfl, rfl⟩
    exact ⟨hnone, buildDiffSummary_stats_none table X fun r hr => (hnone r hr).2.2⟩

/-- Witness for C10: a malformed (empty) table still yields one row per
point with all method fields null. -/
theorem summary_total_witness :
    (buildDifferentiationMethodsSummary ⟨[], []⟩ [1]).rows.length = 1 ∧
    (buildDifferentiationMethodsSummary ⟨[], []⟩ [1]).meanAbsDiff = none := by
  have h := summary_total ⟨[], []⟩ [1]
  refine ⟨h.1, ?_⟩
  exact (h.2.2 (.dataError "Tabular data must contain at least minPoints points.")
    (.dataError "Tabular data must contain at least minPoints points.")
    (by rfl) (by rfl)).2.1

/-- C8 counterexample: on a perfectly valid table, calling the
interpolation summary with an empty `X` does NOT return a summary with no
rows and `meanAbsDiff = 0`: it fails with a `DataError`, because
`validatePointsToEvaluate` rejects empty `X` before the zero-by-convention
branch can run. -/
theorem interp_summary_empty_counterexample :
    buildInterpolationMethodsSummary ⟨[0, 1], [0, 0]⟩ []
      = .error (.dataError "Points to evaluate (X) must be a non-empty array.") := by
  rfl

theorem foldl_maxstep_ge : ∀ (l : List ℚ) (a : ℚ),
    a ≤ l.foldl (fun m d => if m < d then d else m) a ∧
    ∀ d ∈ l, d ≤ l.foldl (fun m d => if m < d then d else m) a := by
  intro l
  induction l with
  | nil => intro a; exact ⟨le_rfl, by simp⟩
  | cons b t ih =>
    intro a
    simp only [List.foldl_cons]
    have hstep : a ≤ (if a < b then b else a) ∧ b ≤ (if a < b then b else a) := by
      split_ifs with hab
      · exact ⟨le_of_lt hab, le_rfl⟩
      · exact ⟨le_rfl, not_lt.mp hab⟩
    refine ⟨le_trans hstep.1 (ih _).1, fun d hd => ?_⟩
    rcases List.mem_cons.mp hd with rfl | hdt
    · exact le_trans hstep.2 (ih _).1
    · exact (ih _).2 d hdt

theorem foldl_maxstep_choice : ∀ (l : List ℚ) (a : ℚ),
    l.foldl (fun m d => if m < d then d else m) a = a ∨
    l.foldl (fun m d => if m < d then d else m) a ∈ l := by
  intro l
  induction l with
  | nil => intro a; exact Or.inl rfl
  | cons b t ih =>
    intro a
    simp only [List.foldl_cons]
    split_ifs with hab
    · rcases ih b with h | h
      · exact Or.inr (by rw [h]; exact List.mem_cons_self b t)
      · exact Or.inr (List.mem_cons_of_mem b h)
    · rcases ih a with h | h
      · exact Or.inl h
      · exact Or.inr (List.mem_cons_of_mem b h)

theorem range_map_getD (X : List ℚ) (g : ℚ → ℚ) :
    (List.range X.length).map (fun i => g (X.getD i 0)) = X.map g := by
  apply List.ext_getElem
  · simp
  · intro i h1 h2
    simp only [List.getElem_map, List.getElem_range]
    congr 1
    rw [List.getD_eq_getElem?_getD, List.getElem?_eq_getElem (by simpa using h2)]
    rfl

/-- The rejection of empty `X` happens before any computation. -/
theorem validatePointsToEvaluate_empty (table : TabularFunction) (rng : Bool) :
    validatePointsToEvaluate table [] rng
      = .error (.dataError "Points to evaluate (X) must be a non-empty array.") := rfl

/-- C8 (amended): with empty `X` the interpolation summary fails with a
`DataError` — the zero-by-convention mean for zero points is unreachable;
with non-empty `X` on a valid table it succeeds and `meanAbsDiff` is the
mean, and `maxAbsDiff` the maximum, of `|lagrange - newton|` over the
points of `X`. -/
theorem interp_summary_aggregates (table : TabularFunction) (X : List ℚ)
    (hv : validateTabular table 2 = .ok ()) :
    (X = [] → ∃ m, buildInterpolationMethodsSummary table X = .error (.dataError m)) ∧
    (X ≠ [] → ∃ s, buildInterpolationMethodsSummary table X = .ok s ∧
      s.rows.length = X.length ∧
      s.meanAbsDiff = (X.map (fun Xk =>
          |interpolateLagrangeAtPoint table.x table.f Xk
            - evaluateNewtonAtPoint table.x
                (buildNewtonCoefficients table.x table.f) Xk|)).sum / (X.length : ℚ) ∧
      (∀ d ∈ X.map (fun Xk =>
          |interpolateLagrangeAtPoint table.x table.f Xk
            - evaluateNewtonAtPoint table.x
                (buildNewtonCoefficients table.x table.f) Xk|), d ≤ s.maxAbsDiff) ∧
      (s.maxAbsDiff ∈ X.map (fun Xk =>
          |interpolateLagrangeAtPoint table.x table.f Xk
            - evaluateNewtonAtPoint table.x
                (buildNewtonCoefficients table.x table.f) Xk|) ∨ s.maxAbsDiff = 0)) := by
  constructor
  · intro hXe
    subst hXe
    unfold buildInterpolationMethodsSummary interpolateLagrange
    rw [hv, validatePointsToEvaluate_empty]
    exact ⟨_, rfl⟩
  · intro hne
    have hXok := validatePointsToEvaluate_false_ok table X hne
    have hlen0 : 0 < X.length := by
      cases X with
      | nil => exact absurd rfl hne
      | cons a t => simp
    unfold buildInterpolationMethodsSummary interpolateLagrange interpolateNewton
    rw [hv, hXok]
    simp only []
    have hdiffs : ((List.range X.length).map fun i =>
        ({ X := X.getD i 0,
           lagrange := (X.map (fun Xk =>
             interpolateLagrangeAtPoint table.x table.f Xk)).getD i 0,
           newton := (X.map (fun Xk => evaluateNewtonAtPoint table.x
             (buildNewtonCoefficients table.x table.f) Xk)).getD i 0,
           absDiff := |(X.map (fun Xk =>
               interpolateLagrangeAtPoint table.x table.f Xk)).getD i 0
             - (X.map (fun Xk => evaluateNewtonAtPoint table.x
                 (buildNewtonCoefficients table.x table.f) Xk)).getD i 0| }
          : InterpolationComparisonRow)).map (fun r => r.absDiff)
        = X.map (fun Xk => |interpolateLagrangeAtPoint table.x table.f Xk
            - evaluateNewtonAtPoint table.x
                (buildNewtonCoefficients table.x table.f) Xk|) := by
      rw [List.map_map]
      rw [← range_map_getD X (fun Xk => |interpolateLagrangeAtPoint table.x table.f Xk
        - evaluateNewtonAtPoint table.x (buildNewtonCoefficients table.x table.f) Xk|)]
      refine List.map_congr_left fun i hi => ?_
      have hiX : i < X.length := by simpa using hi
      show |(X.map _).getD i 0 - (X.map _).getD i 0| = _
      rw [List.getD_eq_getElem?_getD, List.getElem?_eq_getElem (by simpa using hiX),
        List.getD_eq_getElem?_getD (X.map _),
        List.getElem?_eq_getElem (by simpa using hiX)]
      simp only [List.getElem_map, Option.getD_some]
      rw [List.getD_eq_getElem?_getD, List.getElem?_eq_getElem hiX]
      rfl
    refine ⟨_, rfl, by simp, ?_, ?_, ?_⟩
    · show (if 0 < X.length then _ / ((X.length : ℕ) : ℚ) else 0) = _
      rw [if_pos hlen0, hdiffs]
    · intro d hd
      show d ≤ (_ : List ℚ).foldl _ 0
      rw [hdiffs]
      exact (foldl_maxstep_ge _ 0).2 d hd
    · show ((_ : List ℚ).foldl _ 0 ∈ _) ∨ ((_ : List ℚ).foldl _ 0 = 0)
      rw [hdiffs]
      rcases foldl_maxstep_choice (X.map (fun Xk =>
          |interpolateLagrangeAtPoint table.x table.f Xk
            - evaluateNewtonAtPoint table.x
                (buildNewtonCoefficients table.x table.f) Xk|)) 0 with h | h
      · exact Or.inr h
      · exact Or.inl h

/-- Witness for C8 (amended): the empty-`X` call fails; a one-point call
succeeds with one row. -/
theorem interp_summary_aggregates_witness :
    (∃ m, buildInterpolationMethodsSummary ⟨[0, 1], [0, 0]⟩ []
        = .error (.dataError m)) ∧
    (∃ s, buildInterpolationMethodsSummary ⟨[0, 1], [5, 7]⟩ [1/2] = .ok s ∧
      s.rows.length = 1) := by
  constructor
  · exact (interp_summary_aggregates ⟨[0, 1], [0, 0]⟩ [] (by decide)).1 rfl
  · obtain ⟨s, hs, hlen, _⟩ :=
      (interp_summary_aggregates ⟨[0, 1], [5, 7]⟩ [1/2] (by decide)).2 (by simp)
    exact ⟨s, hs, hlen⟩

theorem findNearestIndex_ok (x : List ℚ) (X : ℚ) (hx : x.length ≠ 0) :
    findNearestIndex x X = .ok (findNearestIndexCore x X) := by
  unfold findNearestIndex
  rw [if_neg hx]

theorem finiteDifference5_ok (f : List ℚ) (i : ℕ) (h : ℚ) (hn : 5 ≤ f.length) :
    ∃ v, finiteDifference5AtIndex f i h = .ok v := by
  unfold finiteDifference5AtIndex
  simp only []
  rw [if_neg (by omega)]
  split_ifs <;> exact ⟨_, rfl⟩

theorem mapExcept_ok_of_all_ok {g : ℚ → Except CalcError ℚ} :
    ∀ {l : List ℚ}, (∀ a ∈ l, ∃ c, g a = .ok c) → ∃ bs, mapExcept g l = .ok bs := by
  intro l
  induction l with
  | nil => intro _; exact ⟨[], rfl⟩
  | cons a t ih =>
    intro hall
    obtain ⟨c, hc⟩ := hall a (List.mem_cons_self a t)
    obtain ⟨bs, hbs⟩ := ih fun b hb => hall b (List.mem_cons_of_mem a hb)
    exact ⟨c :: bs, by simp [mapExcept, hc, hbs]⟩

theorem mapExcept_branch_error {g : ℚ → Except CalcError ℚ} {X : List ℚ}
    (hall : ∀ b ∈ X, (∃ c, g b = .ok c) ∨ ∃ m, g b = .error (.dataError m))
    (hbad : ∃ a ∈ X, ∀ c, g a ≠ .ok c) :
    ∃ m, (match mapExcept g X with
      | .error e => (.error e : Except CalcError DerivativeResult)
      | .ok Fd => .ok { X := X, Fd := Fd }) = .error (.dataError m) := by
  obtain ⟨m, hm⟩ := mapExcept_error_of_mem hall hbad
  exact ⟨m, by rw [hm]⟩

theorem mapExcept_branch_ok {g : ℚ → Except CalcError ℚ} {X : List ℚ}
    (hall : ∀ b ∈ X, ∃ c, g b = .ok c) :
    ∃ r, (match mapExcept g X with
      | .error e => (.error e : Except CalcError DerivativeResult)
      | .ok Fd => .ok { X := X, Fd := Fd }) = .ok r := by
  obtain ⟨bs, hbs⟩ := mapExcept_ok_of_all_ok hall
  exact ⟨_, by rw [hbs]⟩

/-- Core exactness of `differentiateByInterpolation5`: on a valid table
sampled from a polynomial of degree at most 4, it succeeds and every
output value is the exact derivative of the polynomial. -/
theorem interp5_core (p : Polynomial ℚ) (table : TabularFunction) (X : List ℚ)
    (hdeg : p.natDegree ≤ 4)
    (hv : validateTabular table 5 = .ok ())
    (hsample : ∀ i < table.x.length, table.f.getD i 0 = p.eval (table.x.getD i 0))
    (hX : validatePointsToEvaluate table X true = .ok ()) :
    ∃ res, differentiateByInterpolation5 table X = .ok res ∧ res.X = X ∧
      res.Fd = X.map (fun Xk => (Polynomial.derivative p).eval Xk) := by
  obtain ⟨hlen, h5, hmono⟩ := (validateTabular_ok_iff table 5).mp hv
  have hmin : validateMinPointsForMethod table 5 "interpolation5" = .ok () :=
    (validateMinPointsForMethod_ok_iff table 5 "interpolation5").mpr h5
  unfold differentiateByInterpolation5
  rw [hv, hmin, hX]
  have hpoint : ∀ Xk ∈ X,
      (match get5PointStencilIndices table Xk with
        | .error e => .error e
        | .ok indices =>
          .ok (computeLagrangeDerivativeAtPoint
            (indices.map (zget table.x)) (indices.map (zget table.f)) Xk)
        : Except CalcError ℚ)
      = .ok ((Polynomial.derivative p).eval Xk) := by
    intro Xk _
    rw [get5PointStencilIndices_ok table Xk h5]
    have hst0 : 0 ≤ stencilStart table.x Xk := stencilStart_nonneg table.x Xk h5
    have hst4 : (stencilStart table.x Xk).toNat + 4 < table.x.length :=
      stencilStart_add_four_lt table.x Xk h5
    have hxlen : (((List.range 5).map fun i => stencilStart table.x Xk + Int.ofNat i).map
        (zget table.x)).length = 5 := stencil_length table.x _
    have hxget : ∀ k, k < 5 →
        (((List.range 5).map fun i => stencilStart table.x Xk + Int.ofNat i).map
          (zget table.x)).getD k 0
        = table.x.getD ((stencilStart table.x Xk).toNat + k) 0 :=
      fun k hk => stencil_map_getD table.x _ hst0 hk
    have hfget : ∀ k, k < 5 →
        (((List.range 5).map fun i => stencilStart table.x Xk + Int.ofNat i).map
          (zget table.f)).getD k 0
        = table.f.getD ((stencilStart table.x Xk).toNat + k) 0 :=
      fun k hk => stencil_map_getD table.f _ hst0 hk
    have heq : computeLagrangeDerivativeAtPoint
        (((List.range 5).map fun i => stencilStart table.x Xk + Int.ofNat i).map
          (zget table.x))
        (((List.range 5).map fun i => stencilStart table.x Xk + Int.ofNat i).map
          (zget table.f)) Xk
        = (Polynomial.derivative p).eval Xk := by
      apply computeLagrangeDerivativeAtPoint_exact p
      · rw [hxlen]
        intro i hi j hj heq
        simp only [Finset.mem_coe, Finset.mem_range] at hi hj
        simp only at heq
        rw [hxget i hi, hxget j hj] at heq
        by_contra hne
        rcases Nat.lt_or_ge i j with hij | hij
        · exact absurd heq
            (ne_of_lt (isStrictlyIncreasing_getD hmono (by omega) (by omega)))
        · have hji : j < i := by omega
          exact absurd heq.symm
            (ne_of_lt (isStrictlyIncreasing_getD hmono (by omega) (by omega)))
      · rw [hxlen]
        omega
      · rw [hxlen]
        intro k hk
        rw [hxget k hk, hfget k hk]
        exact hsample _ (by omega)
    exact congrArg Except.ok heq
  have hmap := mapExcept_ok_of_forall
    (fun Xk => (Polynomial.derivative p).eval Xk) hpoint
  rw [hmap]
  exact ⟨_, rfl, rfl, rfl⟩

/-- C6: if exactly one differentiation method succeeds on `(table, X)`, the
summary still returns one row per point with the succeeding method's value
populated, the failing method's field `none`, `absDiff` `none`, and both
aggregates `none`; symmetrically for either side. -/
theorem summary_degrades_gracefully (table : TabularFunction) (X : List ℚ)
    (hne : X ≠ []) :
    (∀ ri ea, differentiateByInterpolation5 table X = .ok ri →
      differentiateByApproximation5 table X = .error ea →
      (buildDifferentiationMethodsSummary table X).rows.length = X.length ∧
      (∀ k, k < X.length → (buildDifferentiationMethodsSummary table X).rows.get? k
          = some { X := X.getD k 0, interpolation5 := some (ri.Fd.getD k 0),
                   approximation5 := none, absDiff := none }) ∧
      (buildDifferentiationMethodsSummary table X).meanAbsDiff = none ∧
      (buildDifferentiationMethodsSummary table X).maxAbsDiff = none) ∧
    (∀ ra ei, differentiateByInterpolation5 table X = .error ei →
      differentiateByApproximation5 table X = .ok ra →
      (buildDifferentiationMethodsSummary table X).rows.length = X.length ∧
      (∀ k, k < X.length → (buildDifferentiationMethodsSummary table X).rows.get? k
          = some { X := X.getD k 0, interpolation5 := none,
                   approximation5 := some (ra.Fd.getD k 0), absDiff := none }) ∧
      (buildDifferentiationMethodsSummary table X).meanAbsDiff = none ∧
      (buildDifferentiationMethodsSummary table X).maxAbsDiff = none) := by
  constructor
  · intro ri ea hi ha
    have hsh := d5i_ok_shape table X ri hi
    have hrowk : ∀ k, k < X.length →
        (buildDifferentiationMethodsSummary table X).rows.get? k
          = some { X := X.getD k 0, interpolation5 := some (ri.Fd.getD k 0),
                   approximation5 := none, absDiff := none } := by
      intro k hk
      rw [buildDiffSummary_rows, List.get?_eq_getElem?, List.getElem?_map,
        List.getElem?_range hk]
      have hbI : (differentiateByInterpolation5 table X).toOption.bind
          (fun r => r.Fd.get? k) = some (ri.Fd.getD k 0) := by
        rw [hi]
        show ri.Fd.get? k = _
        exact Fd_get?_of_length (by rw [hsh.2]; exact hk)
      have hbA : (differentiateByApproximation5 table X).toOption.bind
          (fun r => r.Fd.get? k) = none := by rw [ha]; rfl
      simp only [Option.map_some', Option.some.injEq, hbI, hbA]
    have hnone : ∀ row ∈ (buildDifferentiationMethodsSummary table X).rows,
        row.absDiff = none := by
      intro row hrow
      rw [buildDiffSummary_rows, List.mem_map] at hrow
      obtain ⟨i, hirange, rfl⟩ := hrow
      have hiX : i < X.length := by simpa using hirange
      have hbI : (differentiateByInterpolation5 table X).toOption.bind
          (fun r => r.Fd.get? i) = some (ri.Fd.getD i 0) := by
        rw [hi]
        show ri.Fd.get? i = _
        exact Fd_get?_of_length (by rw [hsh.2]; exact hiX)
      have hbA : (differentiateByApproximation5 table X).toOption.bind
          (fun r => r.Fd.get? i) = none := by rw [ha]; rfl
      show (match (differentiateByInterpolation5 table X).toOption.bind
          (fun r => r.Fd.get? i), (differentiateByApproximation5 table X).toOption.bind
          (fun r => r.Fd.get? i) with
        | some a, some b => some |a - b|
        | _, _ => none) = none
      rw [hbI, hbA]
    obtain ⟨hm, hx⟩ := buildDiffSummary_stats_none table X hnone
    exact ⟨by rw [buildDiffSummary_rows]; simp, hrowk, hm, hx⟩
  · intro ra ei hi ha
    have hsh := d5a_ok_shape table X ra ha
    have hrowk : ∀ k, k < X.length →
        (buildDifferentiationMethodsSummary table X).rows.get? k
          = some { X := X.getD k 0, interpolation5 := none,
                   approximation5 := some (ra.Fd.getD k 0), absDiff := none } := by
      intro k hk
      rw [buildDiffSummary_rows, List.get?_eq_getElem?, List.getElem?_map,
        List.getElem?_range hk]
      have hbA : (differentiateByApproximation5 table X).toOption.bind
          (fun r => r.Fd.get? k) = some (ra.Fd.getD k 0) := by
        rw [ha]
        show ra.Fd.get? k = _
        exact Fd_get?_of_length (by rw [hsh.2]; exact hk)
      have hbI : (differentiateByInterpolation5 table X).toOption.bind
          (fun r => r.Fd.get? k) = none := by rw [hi]; rfl
      simp only [Option.map_some', Option.some.injEq, hbI, hbA]
    have hnone : ∀ row ∈ (buildDifferentiationMethodsSummary table X).rows,
        row.absDiff = none := by
      intro row hrow
      rw [buildDiffSummary_rows, List.mem_map] at hrow
      obtain ⟨i, hirange, rfl⟩ := hrow
      have hbI : (differentiateByInterpolation5 table X).toOption.bind
          (fun r => r.Fd.get? i) = none := by rw [hi]; rfl
      show (match (differentiateByInterpolation5 table X).toOption.bind
          (fun r => r.Fd.get? i), (differentiateByApproximation5 table X).toOption.bind
          (fun r => r.Fd.get? i) with
        | some a, some b => some |a - b|
        | _, _ => none) = none
      rw [hbI]
    obtain ⟨hm, hx⟩ := buildDiffSummary_stats_none table X hnone
    exact ⟨by rw [buildDiffSummary_rows]; simp, hrowk, hm, hx⟩

/-- `differentiateByApproximation5` fails as soon as the uniform-step
detection signals absence. -/
theorem d5a_error_of_step_none (table : TabularFunction) (X : List ℚ)
    (hv : validateTabular table 5 = .ok ())
    (hnone : getApproximateStep table.x (1 / 1000000) = none) :
    differentiateByApproximation5 table X
      = .error (.dataError "Approximation method requires an almost uniform grid in x.") := by
  have h5 := ((validateTabular_ok_iff table 5).mp hv).2.1
  have hmin : validateMinPointsForMethod table 5 "approximation5" = .ok () :=
    (validateMinPointsForMethod_ok_iff table 5 "approximation5").mpr h5
  unfold differentiateByApproximation5
  rw [hv, hmin, hnone]

/-- Witness for C6: a non-uniform 5-node grid where `interpolation5`
succeeds and `approximation5` fails. -/
theorem summary_degrades_gracefully_witness :
    (buildDifferentiationMethodsSummary ⟨[0, 1, 2, 3, 5], [0, 0, 0, 0, 0]⟩ [1]).rows.get? 0
      = some { X := 1, interpolation5 := some 0, approximation5 := none,
               absDiff := none } ∧
    (buildDifferentiationMethodsSummary ⟨[0, 1, 2, 3, 5], [0, 0, 0, 0, 0]⟩ [1]).meanAbsDiff
      = none := by
  obtain ⟨res, hi, hXres, hFd⟩ := interp5_core 0 ⟨[0, 1, 2, 3, 5], [0, 0, 0, 0, 0]⟩ [1]
    (by simp) (by decide)
    (by
      intro i hilt
      have hi5 : i < 5 := hilt
      interval_cases i <;> simp [List.getD])
    (by decide)
  have ha := d5a_error_of_step_none ⟨[0, 1, 2, 3, 5], [0, 0, 0, 0, 0]⟩ [1] (by decide)
    (by
      rw [getApproximateStep_eq _ _ (by norm_num)]
      rw [show gridSteps [0, 1, 2, 3, 5] = [1, 1, 1, 2] by
        norm_num [gridSteps, List.range_succ]]
      norm_num [abs])
  have hFd0 : res.Fd = [0] := by
    rw [hFd]
    simp
  have h := (summary_degrades_gracefully ⟨[0, 1, 2, 3, 5], [0, 0, 0, 0, 0]⟩ [1]
    (by decide)).1 res _ hi ha
  have hrow := h.2.1 0 (by decide)
  rw [hFd0] at hrow
  exact ⟨hrow, h.2.2.1⟩

/-- C5: `differentiateByApproximation5` on a valid `≥5`-node table with
valid in-range points fails with a `DataError` exactly when the grid is
non-uniform beyond tolerance `1e-6` (`getApproximateStep` returns `none`)
or some evaluation point lies farther than `|h|·1e-3` from its nearest
node; when the grid is uniform and every point is within tolerance of a
node, it succeeds. -/
theorem approx5_error_conditions (table : TabularFunction) (X : List ℚ)
    (hv : validateTabular table 5 = .ok ())
    (hX : validatePointsToEvaluate table X true = .ok ()) :
    (getApproximateStep table.x (1 / 1000000) = none →
      ∃ m, differentiateByApproximation5 table X = .error (.dataError m)) ∧
    (∀ h, getApproximateStep table.x (1 / 1000000) = some h →
      ((∃ Xk ∈ X, |h| * (1 / 1000)
          < |Xk - table.x.getD (findNearestIndexCore table.x Xk) 0|) →
        ∃ m, differentiateByApproximation5 table X = .error (.dataError m)) ∧
      ((∀ Xk ∈ X, |Xk - table.x.getD (findNearestIndexCore table.x Xk) 0|
          ≤ |h| * (1 / 1000)) →
        ∃ r, differentiateByApproximation5 table X = .ok r)) := by
  obtain ⟨hlen, h5, hmono⟩ := (validateTabular_ok_iff table 5).mp hv
  have hmin : validateMinPointsForMethod table 5 "approximation5" = .ok () :=
    (validateMinPointsForMethod_ok_iff table 5 "approximation5").mpr h5
  constructor
  · intro hnone
    unfold differentiateByApproximation5
    rw [hv, hmin, hnone]
    exact ⟨_, rfl⟩
  · intro h hsome
    have hpos : 0 < h := getApproximateStep_pos table.x _ h hmono (by omega) hsome
    have habs : ¬ (|h| = 0) := by rw [abs_eq_zero]; exact ne_of_gt hpos
    have hallshape : ∀ b ∈ X,
        (∃ c, (match findNearestIndex table.x b with
          | .error e => .error e
          | .ok idx =>
            if |h| * (1 / 1000) < |b - table.x.getD idx 0| then
              .error (.dataError "Approximation method supports only points X that are close to tabular nodes.")
            else finiteDifference5AtIndex table.f idx h : Except CalcError ℚ) = .ok c) ∨
        (∃ m, (match findNearestIndex table.x b with
          | .error e => .error e
          | .ok idx =>
            if |h| * (1 / 1000) < |b - table.x.getD idx 0| then
              .error (.dataError "Approximation method supports only points X that are close to tabular nodes.")
            else finiteDifference5AtIndex table.f idx h : Except CalcError ℚ) = .error (.dataError m)) := by
      intro b _
      rw [findNearestIndex_ok table.x b (by omega)]
      by_cases hfar : |h| * (1 / 1000)
          < |b - table.x.getD (findNearestIndexCore table.x b) 0|
      · refine Or.inr
          ⟨"Approximation method supports only points X that are close to tabular nodes.", ?_⟩
        show (if |h| * (1 / 1000)
            < |b - table.x.getD (findNearestIndexCore table.x b) 0| then
            .error (.dataError "Approximation method supports only points X that are close to tabular nodes.")
          else finiteDifference5AtIndex table.f (findNearestIndexCore table.x b) h
          : Except CalcError ℚ) = .error (.dataError "Approximation method supports only points X that are close to tabular nodes.")
        rw [if_pos hfar]
      · obtain ⟨v, hvv⟩ :=
          finiteDifference5_ok table.f (findNearestIndexCore table.x b) h (by omega)
        refine Or.inl ⟨v, ?_⟩
        show (if |h| * (1 / 1000)
            < |b - table.x.getD (findNearestIndexCore table.x b) 0| then
            .error (.dataError "Approximation method supports only points X that are close to tabular nodes.")
          else finiteDifference5AtIndex table.f (findNearestIndexCore table.x b) h
          : Except CalcError ℚ) = .ok v
        rw [if_neg hfar]
        exact hvv
    constructor
    · intro ⟨Xk, hXk, hfar⟩
      unfold differentiateByApproximation5
      rw [hv, hmin, hsome]
      simp only []
      rw [if_neg habs, hX]
      refine mapExcept_branch_error hallshape ⟨Xk, hXk, ?_⟩
      intro c
      rw [findNearestIndex_ok table.x Xk (by omega)]
      show ¬ (if |h| * (1 / 1000)
          < |Xk - table.x.getD (findNearestIndexCore table.x Xk) 0| then
          .error (.dataError "Approximation method supports only points X that are close to tabular nodes.")
        else finiteDifference5AtIndex table.f (findNearestIndexCore table.x Xk) h
        : Except CalcError ℚ) = .ok c
      rw [if_pos hfar]
      simp
    · intro hnear
      unfold differentiateByApproximation5
      rw [hv, hmin, hsome]
      simp only []
      rw [if_neg habs, hX]
      refine mapExcept_branch_ok ?_
      intro b hb
      rw [findNearestIndex_ok table.x b (by omega)]
      obtain ⟨v, hvv⟩ :=
        finiteDifference5_ok table.f (findNearestIndexCore table.x b) h (by omega)
      refine ⟨v, ?_⟩
      show (if |h| * (1 / 1000)
          < |b - table.x.getD (findNearestIndexCore table.x b) 0| then
          .error (.dataError "Approximation method supports only points X that are close to tabular nodes.")
        else finiteDifference5AtIndex table.f (findNearestIndexCore table.x b) h
        : Except CalcError ℚ) = .ok v
      rw [if_neg (not_lt.mpr (hnear b hb))]
      exact hvv

/-- Witness for C5: a uniform grid with a node-coincident point succeeds. -/
theorem approx5_error_conditions_witness :
    ∃ r, differentiateByApproximation5 ⟨[0, 1, 2, 3, 4], [0, 1, 4, 9, 16]⟩ [2] = .ok r := by
  have hstep : getApproximateStep ([0, 1, 2, 3, 4] : List ℚ) (1 / 1000000) = some 1 := by
    rw [getApproximateStep_eq _ _ (by norm_num)]
    rw [show gridSteps [0, 1, 2, 3, 4] = [1, 1, 1, 1] by
      norm_num [gridSteps, List.range_succ]]
    norm_num [abs]
  have h := (approx5_error_conditions ⟨[0, 1, 2, 3, 4], [0, 1, 4, 9, 16]⟩ [2]
    (by decide) (by decide)).2 1 hstep
  refine h.2 ?_
  intro Xk hXk
  rw [List.mem_singleton] at hXk
  subst hXk
  rw [show findNearestIndexCore ([0, 1, 2, 3, 4] : List ℚ) 2 = 2 by
    norm_num [findNearestIndexCore, List.range', abs]]
  norm_num [abs]

/-- C3: for every polynomial `p` of degree ≤ 4 sampled at a valid table of
`≥ 5` strictly increasing nodes and every in-range evaluation point list,
`differentiateByInterpolation5` succeeds and returns exactly the analytic
derivative `p'(Xk)` at every point (exact arithmetic). -/
theorem interp5_exact_derivative (p : Polynomial ℚ) (table : TabularFunction)
    (X : List ℚ) (hdeg : p.natDegree ≤ 4)
    (hv : validateTabular table 5 = .ok ())
    (hsample : ∀ i < table.x.length, table.f.getD i 0 = p.eval (table.x.getD i 0))
    (hX : validatePointsToEvaluate table X true = .ok ()) :
    ∃ res, differentiateByInterpolation5 table X = .ok res ∧ res.X = X ∧
      res.Fd = X.map (fun Xk => (Polynomial.derivative p).eval Xk) :=
  interp5_core p table X hdeg hv hsample hX

/-- Witness for C3: the spec's concrete scenario `x = [-2,-1,0,1,2]`,
`f(x) = x⁴ - 2x³ + x - 1`, `X = [-1.5, -0.5, 0.5, 1.5]`, giving
`Fd = [4·X³-6·X²+1] = [-26, -1, 0, 1]` exactly. -/
theorem interp5_exact_derivative_witness :
    ∃ res, differentiateByInterpolation5 ⟨[-2, -1, 0, 1, 2], [29, 1, -1, -1, 1]⟩
        [-(3/2), -(1/2), 1/2, 3/2] = .ok res ∧
      res.Fd = [-26, -1, 0, 1] := by
  obtain ⟨res, h1, _, h3⟩ := interp5_exact_derivative
    (Polynomial.X ^ 4 - Polynomial.C 2 * Polynomial.X ^ 3
      + Polynomial.X - Polynomial.C 1)
    ⟨[-2, -1, 0, 1, 2], [29, 1, -1, -1, 1]⟩ [-(3/2), -(1/2), 1/2, 3/2]
    (by compute_degree)
    (by decide)
    (by
      intro i hilt
      have hi5 : i < 5 := hilt
      interval_cases i <;>
        norm_num [List.getD, Polynomial.eval_add, Polynomial.eval_sub,
          Polynomial.eval_mul, Polynomial.eval_pow, Polynomial.eval_C,
          Polynomial.eval_X])
    (by
      rw [validatePointsToEvaluate_ok_iff]
      refine ⟨by simp, fun _ v hvm => ?_⟩
      fin_cases hvm <;> norm_num [List.getD])
  refine ⟨res, h1, ?_⟩
  rw [h3]
  norm_num [Polynomial.derivative_sub, Polynomial.derivative_add,
    Polynomial.derivative_mul, Polynomial.derivative_C, Polynomial.derivative_X_pow,
    Polynomial.derivative_X, Polynomial.eval_add, Polynomial.eval_sub,
    Polynomial.eval_mul, Polynomial.eval_pow, Polynomial.eval_C, Polynomial.eval_X]

end InterpolCalc
